import Mathlib

/-
  Verification of the bellboy Job orchestrator specification.

  The repository ships, under `src/`, only the package entry module
  `src/index.ts` (its export list is embedded below as `indexExports`)
  together with the README.  The Job orchestrator, Destination batch
  engine and Event Bus themselves are not part of the sources given, so
  they are modelled here from the natural-language specification
  (sections 3-7 of spec.md); every such definition carries a doc comment
  starting with "Modelled from the spec:".

  Rows, generated records, stream arguments and error values are opaque
  to the core (spec section 3: "rows are opaque values to the core"), so
  they are represented by natural numbers throughout.
-/

namespace Bellboy

/-- Modelled from the spec: the named lifecycle events of section 4.1 with
their arguments.  Destination-scoped events carry the destination index. -/
inductive Ev where
  | startProcessing : Ev
  | startProcessingStream : List Nat → Ev
  | startProcessingRow : Nat → Ev
  | rowGenerated : Nat → Nat → Ev
  | rowGenerationError : Nat → Nat → Nat → Ev
  | endProcessingRow : Ev
  | transformingBatch : Nat → List Nat → Ev
  | transformedBatch : Nat → List Nat → Ev
  | transformingBatchError : Nat → List Nat → Nat → Ev
  | endTransformingBatch : Nat → Ev
  | loadingBatch : Nat → List Nat → Ev
  | loadedBatch : Nat → List Nat → Ev
  | loadingBatchError : Nat → List Nat → Nat → Ev
  | endLoadingBatch : Nat → Ev
  | endProcessingStream : List Nat → Ev
  | processingError : Nat → Ev
  | endProcessing : Ev
  deriving DecidableEq, Repr

/-- Modelled from the spec: the outcome of driving a destination's
`recordGenerator` on one row (section 4.2 step 2): the records it yielded
before finishing, and, when it raised, the error value; the records after
the error are abandoned and therefore never materialize here. -/
structure GenResult where
  records : List Nat
  genError : Option Nat
  deriving Repr

/-- Modelled from the spec: one configured destination (section 3,
"Destination state" and section 6 "Destination configuration").
`batchSize = 0` means unset/unbounded.  `loadBatch` returns `some e` when
the sink raised `e` and `none` on success. -/
structure Destination where
  batchSize : Nat
  disableLoad : Bool
  recordGenerator : Nat → GenResult
  batchTransformer : Option (List Nat → Except Nat (List Nat))
  loadBatch : List Nat → Option Nat

/-- Modelled from the spec: one stream produced by the source adapter
(section 4.3): its adapter-specific stream arguments and its rows in
source order. -/
structure SourceStream where
  streamArgs : List Nat
  rows : List Nat

/-- Modelled from the spec: a whole job configuration.  `rowLimit = 0`
means unlimited (section 4.3).  `adapterError = some e` models the source
adapter itself raising `e` after the rows it managed to produce
(job-fatal, section 7).  `stopAfter = some k` models a listener calling
`stop` once `k` rows have been accepted (section 4.4: it takes effect at
the next row checkpoint), and `stopMessage` is the `errorMessage`
argument of that `stop` call. -/
structure JobConfig where
  destinations : List Destination
  rowLimit : Nat
  streams : List SourceStream
  adapterError : Option Nat
  stopAfter : Option Nat
  stopMessage : Option Nat

/-- Modelled from the spec: the events of the batch-transform half of a
flush (section 4.2 step 4): emit `transformingBatch`; if a transformer is
configured apply it, emitting `transformedBatch` on success or
`transformingBatchError` on failure; emit `endTransformingBatch`. -/
def transformEvents (i : Nat) (d : Destination) (batch : List Nat) :
    List Ev :=
  match d.batchTransformer with
  | none =>
      [Ev.transformingBatch i batch, Ev.transformedBatch i batch,
       Ev.endTransformingBatch i]
  | some f =>
      match f batch with
      | Except.ok out =>
          [Ev.transformingBatch i batch, Ev.transformedBatch i out,
           Ev.endTransformingBatch i]
      | Except.error e =>
          [Ev.transformingBatch i batch, Ev.transformingBatchError i batch e,
           Ev.endTransformingBatch i]

/-- Modelled from the spec: the payload surviving the batch-transform half
of a flush (section 4.2 step 4): the batch itself without a configured
transformer, the transformer's output on success, or nothing on failure
(the batch is then discarded without loading). -/
def transformResult (d : Destination) (batch : List Nat) :
    Option (List Nat) :=
  match d.batchTransformer with
  | none => some batch
  | some f =>
      match f batch with
      | Except.ok out => some out
      | Except.error _ => none

/-- Modelled from the spec: the load half of a flush (section 4.2 step 4):
if load is not disabled and a payload survived transformation, emit
`loadingBatch`, invoke the sink, emit `loadedBatch` on success or
`loadingBatchError` on failure (the error is reported, never fatal), then
`endLoadingBatch`. -/
def loadPhase (i : Nat) (d : Destination) (payload : Option (List Nat)) :
    List Ev :=
  match payload with
  | none => []
  | some data =>
      if d.disableLoad || data.isEmpty then []
      else
        match d.loadBatch data with
        | none =>
            [Ev.loadingBatch i data, Ev.loadedBatch i data,
             Ev.endLoadingBatch i]
        | some e =>
            [Ev.loadingBatch i data, Ev.loadingBatchError i data e,
             Ev.endLoadingBatch i]

/-- Modelled from the spec: a full flush of one destination's current
batch (section 4.2 step 4).  The caller resets the batch to empty
afterwards regardless of outcome. -/
def flushBatch (i : Nat) (d : Destination) (batch : List Nat) : List Ev :=
  transformEvents i d batch ++ loadPhase i d (transformResult d batch)

/-- Modelled from the spec: appending the records one row generated for
one destination (section 4.2 steps 2-3): for each yielded record emit
`rowGenerated` and append it to the current batch; per the section 3
invariant "a load is triggered synchronously the instant the bound is
reached", the `batchSize` threshold is checked after each appended
record, flushing (and resetting) the batch at once when it fills. -/
def acceptRecords (i : Nat) (d : Destination) :
    List Nat → List Nat → List Ev × List Nat
  | [], batch => ([], batch)
  | r :: rs, batch =>
      if 0 < d.batchSize ∧ d.batchSize ≤ (batch ++ [r]).length then
        let step := acceptRecords i d rs []
        (Ev.rowGenerated i r :: (flushBatch i d (batch ++ [r]) ++ step.1),
         step.2)
      else
        let step := acceptRecords i d rs (batch ++ [r])
        (Ev.rowGenerated i r :: step.1, step.2)

/-- Modelled from the spec: one destination accepting one row
(section 4.2): drive the record generator; if generation raised, emit
`rowGenerationError` and abandon the remaining records for this
destination only. -/
def destAcceptRow (i : Nat) (d : Destination) (row : Nat)
    (batch : List Nat) : List Ev × List Nat :=
  match (d.recordGenerator row).genError with
  | none => acceptRecords i d (d.recordGenerator row).records batch
  | some e =>
      ((acceptRecords i d (d.recordGenerator row).records batch).1
         ++ [Ev.rowGenerationError i row e],
       (acceptRecords i d (d.recordGenerator row).records batch).2)

/-- Modelled from the spec: the fan-out of one row over the destinations
(section 4.4, section 5): every destination's batch engine handles the
row; destination order is sequential (the spec allows either order,
section 9).  `k` is the index of the first destination in the list. -/
def fanOut (row : Nat) : Nat → List (Destination × List Nat) →
    List Ev × List (Destination × List Nat)
  | _, [] => ([], [])
  | k, (d, b) :: rest =>
      let step := destAcceptRow k d row b
      let next := fanOut row (k + 1) rest
      (step.1 ++ next.1, (d, step.2) :: next.2)

/-- Modelled from the spec: processing of one pulled row (section 4.4):
emit `startProcessingRow`, fan the row out to every destination, emit
`endProcessingRow` once all of them finished. -/
def processRow (row : Nat) (ps : List (Destination × List Nat)) :
    List Ev × List (Destination × List Nat) :=
  let step := fanOut row 0 ps
  (Ev.startProcessingRow row :: (step.1 ++ [Ev.endProcessingRow]), step.2)

/-- Modelled from the spec: whether a listener has called `stop` by the
time `rowCount` rows have been accepted (section 4.4). -/
def stoppedAt (cfg : JobConfig) (rowCount : Nat) : Bool :=
  match cfg.stopAfter with
  | none => false
  | some k => decide (k ≤ rowCount)

/-- Modelled from the spec: the row checkpoint (section 4.4): after a row
completes, if the `rowLimit` is reached or the job was stopped, the
orchestrator transitions toward finalizing and stops invoking `pull`. -/
def checkpointHalt (cfg : JobConfig) (rowCount : Nat) : Bool :=
  (decide (0 < cfg.rowLimit) && decide (cfg.rowLimit ≤ rowCount))
    || stoppedAt cfg rowCount

/-- Mutable loop state of the orchestrator: per-destination batches and
the accepted-row counter. -/
structure LoopState where
  dstate : List (Destination × List Nat)
  rowCount : Nat

/-- Modelled from the spec: the row-pull loop of one stream
(section 4.4): before each pull, the checkpoint is consulted; otherwise
the row is processed and the counter incremented. -/
def runRows (cfg : JobConfig) : List Nat → LoopState → List Ev × LoopState
  | [], st => ([], st)
  | row :: rest, st =>
      if checkpointHalt cfg st.rowCount then ([], st)
      else
        let step := processRow row st.dstate
        let next := runRows cfg rest ⟨step.2, st.rowCount + 1⟩
        (step.1 ++ next.1, next.2)

/-- Modelled from the spec: the stream loop (section 4.4):
`startProcessingStream` is emitted on the first pull of a stream (hence
not for an empty stream), `endProcessingStream` when the adapter signals
exhaustion of the stream; once halted, no further stream is started. -/
def runStreams (cfg : JobConfig) :
    List SourceStream → LoopState → List Ev × LoopState
  | [], st => ([], st)
  | s :: rest, st =>
      if checkpointHalt cfg st.rowCount then ([], st)
      else
        let startEvs :=
          if s.rows.isEmpty then ([] : List Ev)
          else [Ev.startProcessingStream s.streamArgs]
        let step := runRows cfg s.rows st
        let next := runStreams cfg rest step.2
        (startEvs ++ step.1 ++ [Ev.endProcessingStream s.streamArgs]
           ++ next.1, next.2)

/-- Modelled from the spec: finalization of one destination
(section 4.2 `finalize()`): flush whatever remains in the current batch,
if non-empty, following the same flush sequence. -/
def finalizeDest (i : Nat) (d : Destination) (batch : List Nat) : List Ev :=
  if batch.isEmpty then [] else flushBatch i d batch

/-- Modelled from the spec: finalization calls `finalize()` on every
destination in order (section 4.4).  `k` is the index of the first
destination in the list. -/
def finalizeAll : Nat → List (Destination × List Nat) → List Ev
  | _, [] => []
  | k, (d, b) :: rest => finalizeDest k d b ++ finalizeAll (k + 1) rest

/-- Initial loop state: every destination starts with an empty batch. -/
def initState (cfg : JobConfig) : LoopState :=
  ⟨cfg.destinations.map (fun d => (d, [])), 0⟩

/-- The whole row-consumption phase of a run: all streams, starting from
the initial state. -/
def streamPhase (cfg : JobConfig) : List Ev × LoopState :=
  runStreams cfg cfg.streams (initState cfg)

/-- Total number of rows the source can supply, over all streams. -/
def totalRows (cfg : JobConfig) : Nat :=
  (cfg.streams.map (fun s => s.rows.length)).sum

/-- Result of `run()`: the emitted event trace and the promise outcome
(`Except.error e` models a rejection carrying `e`). -/
structure RunResult where
  trace : List Ev
  outcome : Except Nat Unit

/-- Modelled from the spec: the fatal error a run ends with, if any
(sections 4.4 and 7): a stop message takes precedence; an adapter error
is fatal only when the adapter was still being driven (it was not told to
stop early by the row limit or a stop call). -/
def fatalError (cfg : JobConfig) (rowCount : Nat) : Option Nat :=
  if stoppedAt cfg rowCount then cfg.stopMessage
  else if 0 < cfg.rowLimit ∧ cfg.rowLimit ≤ rowCount then none
  else cfg.adapterError

/-- The `processingError` event reporting a fatal cause, when there is
one. -/
def errEvents (o : Option Nat) : List Ev :=
  match o with
  | some e => [Ev.processingError e]
  | none => []

/-- The fatal cause of a whole run, determined at the end of the stream
phase. -/
def jobFatal (cfg : JobConfig) : Option Nat :=
  fatalError cfg ((streamPhase cfg).2).rowCount

/-- Modelled from the spec: the full event trace of a `run()`
(section 4.4 state machine): `startProcessing`, the stream phase, the
`processingError` report of a fatal cause if any, finalization of every
destination in order, and `endProcessing` always last. -/
def jobTrace (cfg : JobConfig) : List Ev :=
  Ev.startProcessing ::
    ((streamPhase cfg).1 ++ errEvents (jobFatal cfg)
      ++ finalizeAll 0 ((streamPhase cfg).2).dstate ++ [Ev.endProcessing])

/-- Modelled from the spec: a complete `run()`: the trace together with
the promise outcome; `run()` rejects only for a fatal cause: an adapter
error, or a stop with a message, whose message takes precedence
(section 7). -/
def runJob (cfg : JobConfig) : RunResult :=
  { trace := jobTrace cfg,
    outcome := match jobFatal cfg with
      | some e => Except.error e
      | none => Except.ok () }

/-- Destination index carried by an event, when the event is
destination-scoped. -/
def evTag : Ev → Option Nat
  | Ev.rowGenerated i _ => some i
  | Ev.rowGenerationError i _ _ => some i
  | Ev.transformingBatch i _ => some i
  | Ev.transformedBatch i _ => some i
  | Ev.transformingBatchError i _ _ => some i
  | Ev.endTransformingBatch i => some i
  | Ev.loadingBatch i _ => some i
  | Ev.loadedBatch i _ => some i
  | Ev.loadingBatchError i _ _ => some i
  | Ev.endLoadingBatch i => some i
  | _ => none

/-- Recognizer: `rowGenerated` for destination `i`. -/
def isRowGen (i : Nat) : Ev → Bool
  | Ev.rowGenerated j _ => j == i
  | _ => false

/-- Recognizer: a batch-load result (`loadedBatch` or `loadingBatchError`)
for destination `i`. -/
def isLoadResult (i : Nat) : Ev → Bool
  | Ev.loadedBatch j _ => j == i
  | Ev.loadingBatchError j _ _ => j == i
  | _ => false

/-- Recognizer: `startProcessingRow`. -/
def isStartRow : Ev → Bool
  | Ev.startProcessingRow _ => true
  | _ => false

/-- Recognizer: `endProcessingRow`. -/
def isEndRow : Ev → Bool
  | Ev.endProcessingRow => true
  | _ => false

/-- A destination whose sink is live and whose transformer (when
configured) always succeeds and keeps a non-empty payload for a
non-empty batch: the situation in which every flush produces exactly one
load-result event. -/
def GoodDest (d : Destination) : Prop :=
  d.disableLoad = false ∧
    ∀ f, d.batchTransformer = some f →
      ∀ b : List Nat, b ≠ [] → ∃ out, f b = Except.ok out ∧ out ≠ []

/-- Modelled from the spec: the Event Bus hands an emitted event to each
registered listener in order, awaiting each one; a listener's failure is
caught individually and converted to a logged warning (section 4.1).
Returns exactly one entry per registered listener, in invocation order:
the warning it produced, or `none` when it succeeded. -/
def dispatchListeners : List (Ev → Except Nat Unit) → Ev → List (Option Nat)
  | [], _ => []
  | l :: ls, ev =>
      (match l ev with
       | Except.ok _ => none
       | Except.error w => some w) :: dispatchListeners ls ev

/-- Modelled from the spec: a run observed by a list of listeners: every
event of the trace is delivered to all of them; because listener failures
are caught by the bus and never propagate, the pipeline's trace and
outcome are those of the job itself, and the dispatch log is returned
alongside. -/
def runJobObserved (cfg : JobConfig)
    (ls : List (Ev → Except Nat Unit)) :
    RunResult × List (List (Option Nat)) :=
  let r := runJob cfg
  (r, r.trace.map (dispatchListeners ls))

/-- A fully emitted event record (section 3 "Event"): the event, its
`eventId` and its `timestamp`. -/
structure BellboyRecord where
  event : Ev
  eventId : Nat
  timestamp : Nat
  deriving DecidableEq, Repr

/-- Modelled from the spec: the Event Bus assigns `eventId` from a
monotonically increasing counter and the `timestamp` at emission time, in
emission order (section 3).  `clock n` is the time the bus observes at
the `n`-th emission; `k` is the counter value at the first event. -/
def assignMeta (clock : Nat → Nat) : Nat → List Ev → List BellboyRecord
  | _, [] => []
  | k, e :: es => ⟨e, k, clock k⟩ :: assignMeta clock (k + 1) es

/-- The full records emitted by one run, ids starting at 0. -/
def jobRecords (cfg : JobConfig) (clock : Nat → Nat) : List BellboyRecord :=
  assignMeta clock 0 (runJob cfg).trace

/-- The export list of the package entry module `src/index.ts`, in source
order. -/
def indexExports : List String :=
  ["ExcelProcessor", "PostgresProcessor", "MssqlProcessor", "HttpProcessor",
   "DynamicProcessor", "JsonProcessor", "MqttProcessor", "getDb"]

/-- The row count at which the checkpoint starts halting the pull loop,
when some bound is active: the row limit, the stop request, or the
smaller of the two. -/
def haltBound (cfg : JobConfig) : Option Nat :=
  match cfg.stopAfter with
  | none => if 0 < cfg.rowLimit then some cfg.rowLimit else none
  | some k => if 0 < cfg.rowLimit then some (min cfg.rowLimit k) else some k

/-- The number of rows a run accepts: every available row, capped by the
active halt bound. -/
def expectedRows (cfg : JobConfig) : Nat :=
  match haltBound cfg with
  | none => totalRows cfg
  | some bound => min (totalRows cfg) bound

/-- A trace segment containing no `startProcessingRow` and no
`endProcessingRow` event. -/
def RowNeutral (l : List Ev) : Prop :=
  List.countP isStartRow l = 0 ∧ List.countP isEndRow l = 0

/-- In every prefix of the segment, at most one more row has been started
than has been ended: a `startProcessingRow` for row N+1 never precedes
the `endProcessingRow` for row N. -/
def RowSafe (l : List Ev) : Prop :=
  ∀ n, List.countP isStartRow (l.take n)
    ≤ List.countP isEndRow (l.take n) + 1

/-- A row-safe segment in which every started row has also ended. -/
def RowClosed (l : List Ev) : Prop :=
  RowSafe l ∧ List.countP isStartRow l = List.countP isEndRow l

/-- Example destination: batch size 2, identity generator, live load. -/
def exDest : Destination :=
  { batchSize := 2, disableLoad := false,
    recordGenerator := fun r => ⟨[r], none⟩,
    batchTransformer := none,
    loadBatch := fun _ => none }

/-- Example job: one stream of five rows into `exDest`. -/
def exCfg : JobConfig :=
  { destinations := [exDest], rowLimit := 0,
    streams := [⟨[9], [1, 2, 3, 4, 5]⟩],
    adapterError := none, stopAfter := none, stopMessage := none }

/-- Destination with load disabled, batch size 1. -/
def noLoadDest : Destination :=
  { batchSize := 1, disableLoad := true,
    recordGenerator := fun r => ⟨[r], none⟩,
    batchTransformer := none,
    loadBatch := fun _ => none }

/-- Job with a single row into the load-disabled destination. -/
def noLoadCfg : JobConfig :=
  { destinations := [noLoadDest], rowLimit := 0,
    streams := [⟨[], [7]⟩],
    adapterError := none, stopAfter := none, stopMessage := none }

/-- Destination with no batch bound (`batchSize = 0`). -/
def unboundedDest : Destination :=
  { batchSize := 0, disableLoad := false,
    recordGenerator := fun r => ⟨[r], none⟩,
    batchTransformer := none,
    loadBatch := fun _ => none }

/-- Job with three rows into the unbounded destination. -/
def unboundedCfg : JobConfig :=
  { destinations := [unboundedDest], rowLimit := 0,
    streams := [⟨[], [1, 2, 3]⟩],
    adapterError := none, stopAfter := none, stopMessage := none }

/-- Job with `rowLimit = 2` over a source of a single row. -/
def shortSrcCfg : JobConfig :=
  { destinations := [exDest], rowLimit := 2,
    streams := [⟨[], [5]⟩],
    adapterError := none, stopAfter := none, stopMessage := none }

/-- Job with `rowLimit = 2` over a source of five rows. -/
def longSrcCfg : JobConfig :=
  { destinations := [exDest], rowLimit := 2,
    streams := [⟨[], [1, 2, 3, 4, 5]⟩],
    adapterError := none, stopAfter := none, stopMessage := none }

/-- Destination whose sink always fails. -/
def failLoadDest : Destination :=
  { batchSize := 2, disableLoad := false,
    recordGenerator := fun r => ⟨[r], none⟩,
    batchTransformer := none,
    loadBatch := fun _ => some 13 }

/-- Job whose every batch load fails, but which completes cleanly. -/
def failLoadCfg : JobConfig :=
  { destinations := [failLoadDest], rowLimit := 0,
    streams := [⟨[], [1, 2, 3]⟩],
    adapterError := none, stopAfter := none, stopMessage := none }

/-- Job stopped with an error message after two rows. -/
def stopCfg : JobConfig :=
  { destinations := [exDest], rowLimit := 0,
    streams := [⟨[], [1, 2, 3, 4]⟩],
    adapterError := none, stopAfter := some 2, stopMessage := some 42 }

/-- Job whose source adapter raises error 8. -/
def adapterErrCfg : JobConfig :=
  { destinations := [exDest], rowLimit := 0,
    streams := [⟨[], [1, 2]⟩],
    adapterError := some 8, stopAfter := none, stopMessage := none }

/-- Destination whose generator raises error 99 on row 3, after yielding
nothing. -/
def genErrDest : Destination :=
  { batchSize := 2, disableLoad := false,
    recordGenerator := fun r => if r = 3 then ⟨[], some 99⟩ else ⟨[r], none⟩,
    batchTransformer := none,
    loadBatch := fun _ => none }

/-- Two-destination fan-out state: the healthy destination first, the
generator-failing one second, both with empty batches. -/
def genErrPairs : List (Destination × List Nat) :=
  [(exDest, []), (genErrDest, [])]

end Bellboy


namespace Bellboy

/-! ### Event classification -/

theorem isRowGen_tag {i : Nat} {e : Ev} (h : isRowGen i e = true) :
    evTag e = some i := by
  cases e <;> simp_all [isRowGen, evTag]

theorem isLoadResult_tag {i : Nat} {e : Ev} (h : isLoadResult i e = true) :
    evTag e = some i := by
  cases e <;> simp_all [isLoadResult, evTag]

theorem notRow_of_tag {e : Ev} {i : Nat} (h : evTag e = some i) :
    isStartRow e = false ∧ isEndRow e = false := by
  cases e <;> simp_all [evTag, isStartRow, isEndRow]

/-! ### Flush lemmas -/

theorem transformEvents_tag {i : Nat} {d : Destination} {b : List Nat}
    {e : Ev} (he : e ∈ transformEvents i d b) : evTag e = some i := by
  unfold transformEvents at he
  split at he
  · simp at he
    rcases he with rfl | rfl | rfl <;> rfl
  · split at he <;>
      · simp at he
        rcases he with rfl | rfl | rfl <;> rfl

theorem loadPhase_tag {i : Nat} {d : Destination} {pl : Option (List Nat)}
    {e : Ev} (he : e ∈ loadPhase i d pl) : evTag e = some i := by
  unfold loadPhase at he
  split at he
  · simp at he
  · split at he
    · simp at he
    · split at he <;>
        · simp at he
          rcases he with rfl | rfl | rfl <;> rfl

theorem flushBatch_tag {i : Nat} {d : Destination} {b : List Nat}
    {e : Ev} (he : e ∈ flushBatch i d b) : evTag e = some i := by
  rcases List.mem_append.mp he with h | h
  · exact transformEvents_tag h
  · exact loadPhase_tag h

theorem transformEvents_not_rowGen {i j : Nat} {d : Destination}
    {b : List Nat} {e : Ev} (he : e ∈ transformEvents i d b) :
    isRowGen j e = false := by
  unfold transformEvents at he
  split at he
  · simp at he
    rcases he with rfl | rfl | rfl <;> rfl
  · split at he <;>
      · simp at he
        rcases he with rfl | rfl | rfl <;> rfl

theorem transformEvents_not_loadResult {i j : Nat} {d : Destination}
    {b : List Nat} {e : Ev} (he : e ∈ transformEvents i d b) :
    isLoadResult j e = false := by
  unfold transformEvents at he
  split at he
  · simp at he
    rcases he with rfl | rfl | rfl <;> rfl
  · split at he <;>
      · simp at he
        rcases he with rfl | rfl | rfl <;> rfl

theorem loadPhase_not_rowGen {i j : Nat} {d : Destination}
    {pl : Option (List Nat)} {e : Ev} (he : e ∈ loadPhase i d pl) :
    isRowGen j e = false := by
  unfold loadPhase at he
  split at he
  · simp at he
  · split at he
    · simp at he
    · split at he <;>
        · simp at he
          rcases he with rfl | rfl | rfl <;> rfl

theorem flushBatch_rowGen_count (i j : Nat) (d : Destination)
    (b : List Nat) :
    List.countP (isRowGen j) (flushBatch i d b) = 0 := by
  refine List.countP_eq_zero.mpr ?_
  intro e he
  rcases List.mem_append.mp he with h | h
  · simp [transformEvents_not_rowGen h]
  · simp [loadPhase_not_rowGen h]

theorem transformingBatch_mem_transformEvents {i j : Nat}
    {d : Destination} {b rows : List Nat}
    (h : Ev.transformingBatch j rows ∈ transformEvents i d b) :
    j = i ∧ rows = b := by
  unfold transformEvents at h
  split at h
  · simp at h
    rcases h with ⟨rfl, rfl⟩
    exact ⟨rfl, rfl⟩
  · split at h <;>
      · simp at h
        rcases h with ⟨rfl, rfl⟩
        exact ⟨rfl, rfl⟩

theorem transformingBatch_not_mem_loadPhase {i j : Nat} {d : Destination}
    {pl : Option (List Nat)} {rows : List Nat}
    (h : Ev.transformingBatch j rows ∈ loadPhase i d pl) : False := by
  unfold loadPhase at h
  split at h
  · simp at h
  · split at h
    · simp at h
    · split at h <;> simp at h

theorem flushBatch_transformingBatch_mem {i j : Nat} {d : Destination}
    {b rows : List Nat}
    (h : Ev.transformingBatch j rows ∈ flushBatch i d b) :
    j = i ∧ rows = b := by
  rcases List.mem_append.mp h with h' | h'
  · exact transformingBatch_mem_transformEvents h'
  · exact absurd h' (fun hh => transformingBatch_not_mem_loadPhase hh)

theorem transformResult_good {d : Destination} {b : List Nat}
    (hgood : GoodDest d) (hb : b ≠ []) :
    ∃ out, transformResult d b = some out ∧ out ≠ [] := by
  obtain ⟨_, htr⟩ := hgood
  rcases hbt : d.batchTransformer with _ | f
  · exact ⟨b, by simp [transformResult, hbt], hb⟩
  · obtain ⟨out, hout, houtne⟩ := htr f hbt b hb
    exact ⟨out, by simp [transformResult, hbt, hout], houtne⟩

theorem transformEvents_loadResult_count (i : Nat) (d : Destination)
    (b : List Nat) :
    List.countP (isLoadResult i) (transformEvents i d b) = 0 := by
  refine List.countP_eq_zero.mpr ?_
  intro e he
  simp [transformEvents_not_loadResult he]

theorem loadPhase_loadResult_count {i : Nat} {d : Destination}
    {data : List Nat} (hdl : d.disableLoad = false) (hne : data ≠ []) :
    List.countP (isLoadResult i) (loadPhase i d (some data)) = 1 := by
  unfold loadPhase
  have hde : data.isEmpty = false := by simpa using hne
  rcases hlb : d.loadBatch data with _ | er <;>
    simp [hdl, hde, hlb, isLoadResult]

theorem flushBatch_loadResult_count {i : Nat} {d : Destination}
    {b : List Nat} (hgood : GoodDest d) (hb : b ≠ []) :
    List.countP (isLoadResult i) (flushBatch i d b) = 1 := by
  obtain ⟨out, hout, houtne⟩ := transformResult_good hgood hb
  unfold flushBatch
  rw [List.countP_append, hout, transformEvents_loadResult_count,
    loadPhase_loadResult_count hgood.1 houtne]

end Bellboy

namespace Bellboy

/-! ### Record-acceptance lemmas -/

theorem acceptRecords_tag {i : Nat} {d : Destination} :
    ∀ (rs b : List Nat), ∀ e ∈ (acceptRecords i d rs b).1,
      evTag e = some i := by
  intro rs
  induction rs with
  | nil =>
      intro b e he
      simp [acceptRecords] at he
  | cons r rs ih =>
      intro b e he
      by_cases hcond : 0 < d.batchSize ∧ d.batchSize ≤ (b ++ [r]).length
      · simp only [acceptRecords] at he
        rw [if_pos hcond] at he
        simp at he
        rcases he with rfl | h | h
        · rfl
        · exact flushBatch_tag h
        · exact ih [] e h
      · simp only [acceptRecords] at he
        rw [if_neg hcond] at he
        simp at he
        rcases he with rfl | h
        · rfl
        · exact ih _ e h

theorem acceptRecords_zero {i : Nat} {d : Destination}
    (hbs : d.batchSize = 0) :
    ∀ (rs b : List Nat),
      acceptRecords i d rs b = (rs.map (Ev.rowGenerated i), b ++ rs) := by
  intro rs
  induction rs with
  | nil =>
      intro b
      simp [acceptRecords]
  | cons r rs ih =>
      intro b
      have hcond : ¬(0 < d.batchSize ∧ d.batchSize ≤ (b ++ [r]).length) := by
        simp [hbs]
      simp only [acceptRecords]
      rw [if_neg hcond]
      simp [ih]

theorem acceptRecords_spec {i : Nat} {d : Destination}
    (hbs : 0 < d.batchSize) :
    ∀ (rs b : List Nat), b.length < d.batchSize →
      ((acceptRecords i d rs b).2.length
          = (b.length + rs.length) % d.batchSize
       ∧ List.countP (isRowGen i) (acceptRecords i d rs b).1 = rs.length
       ∧ (GoodDest d →
           List.countP (isLoadResult i) (acceptRecords i d rs b).1
             = (b.length + rs.length) / d.batchSize)
       ∧ ∀ rows, Ev.transformingBatch i rows ∈ (acceptRecords i d rs b).1 →
           rows.length = d.batchSize) := by
  intro rs
  induction rs with
  | nil =>
      intro b hb
      refine ⟨?_, ?_, ?_, ?_⟩
      · simp [acceptRecords, Nat.mod_eq_of_lt hb]
      · simp [acceptRecords]
      · intro _
        simp [acceptRecords, Nat.div_eq_of_lt hb]
      · intro rows hmem
        simp [acceptRecords] at hmem
  | cons r rs ih =>
      intro b hb
      by_cases hcond : 0 < d.batchSize ∧ d.batchSize ≤ (b ++ [r]).length
      · have hlen : b.length + 1 = d.batchSize := by
          have := hcond.2
          simp at this
          omega
        have hne : b ++ [r] ≠ [] := by simp
        obtain ⟨ihlen, ihgen, ihload, ihmem⟩ := ih [] (by simpa using hbs)
        refine ⟨?_, ?_, ?_, ?_⟩
        · simp only [acceptRecords]
          rw [if_pos hcond]
          simp only []
          rw [ihlen]
          have harg : b.length + (r :: rs).length
              = d.batchSize + rs.length := by
            simp
            omega
          rw [harg, Nat.add_mod_left]
          simp
        · simp only [acceptRecords]
          rw [if_pos hcond]
          simp only [List.countP_cons, List.countP_append]
          rw [ihgen, flushBatch_rowGen_count]
          simp [isRowGen]
        · intro hgood
          simp only [acceptRecords]
          rw [if_pos hcond]
          simp only [List.countP_cons, List.countP_append]
          rw [ihload hgood, flushBatch_loadResult_count hgood hne]
          have hlr : isLoadResult i (Ev.rowGenerated i r) = false := by
            simp [isLoadResult]
          rw [hlr]
          have harg : b.length + (r :: rs).length
              = rs.length + d.batchSize := by
            simp
            omega
          rw [harg, Nat.add_div_right _ hbs]
          simp
          omega
        · intro rows hmem
          simp only [acceptRecords] at hmem
          rw [if_pos hcond] at hmem
          simp at hmem
          rcases hmem with h | h
          · rcases flushBatch_transformingBatch_mem h with ⟨_, rfl⟩
            simp
            omega
          · exact ihmem rows h
      · have hlt : (b ++ [r]).length < d.batchSize := by
          simp at hcond ⊢
          omega
        obtain ⟨ihlen, ihgen, ihload, ihmem⟩ := ih (b ++ [r]) hlt
        refine ⟨?_, ?_, ?_, ?_⟩
        · simp only [acceptRecords]
          rw [if_neg hcond]
          simp only []
          rw [ihlen]
          have harg : (b ++ [r]).length + rs.length
              = b.length + (r :: rs).length := by
            simp
            omega
          rw [harg]
        · simp only [acceptRecords]
          rw [if_neg hcond]
          simp only [List.countP_cons]
          rw [ihgen]
          simp [isRowGen]
        · intro hgood
          simp only [acceptRecords]
          rw [if_neg hcond]
          simp only [List.countP_cons]
          rw [ihload hgood]
          have hlr : isLoadResult i (Ev.rowGenerated i r) = false := by
            simp [isLoadResult]
          rw [hlr]
          have harg : (b ++ [r]).length + rs.length
              = b.length + (r :: rs).length := by
            simp
            omega
          rw [harg]
          simp
        · intro rows hmem
          simp only [acceptRecords] at hmem
          rw [if_neg hcond] at hmem
          simp at hmem
          exact ihmem rows hmem

end Bellboy

namespace Bellboy

/-! ### Row-acceptance lemmas for one destination -/

theorem destAcceptRow_tag {i : Nat} {d : Destination} {row : Nat}
    {b : List Nat} : ∀ e ∈ (destAcceptRow i d row b).1, evTag e = some i := by
  intro e he
  rcases hg : (d.recordGenerator row).genError with _ | er <;>
    simp only [destAcceptRow, hg] at he
  · exact acceptRecords_tag _ _ e he
  · rcases List.mem_append.mp he with h | h
    · exact acceptRecords_tag _ _ e h
    · simp at h
      subst h
      rfl

theorem destAcceptRow_zero_spec {i : Nat} {d : Destination} {row : Nat}
    {b : List Nat} (hbs : d.batchSize = 0) :
    (destAcceptRow i d row b).2 = b ++ (d.recordGenerator row).records
    ∧ List.countP (isLoadResult i) (destAcceptRow i d row b).1 = 0
    ∧ List.countP (isRowGen i) (destAcceptRow i d row b).1
        = (d.recordGenerator row).records.length
    ∧ ∀ rows, Ev.transformingBatch i rows ∉ (destAcceptRow i d row b).1 := by
  have hmap0 : List.countP (isLoadResult i)
      ((d.recordGenerator row).records.map (Ev.rowGenerated i)) = 0 := by
    refine List.countP_eq_zero.mpr ?_
    intro e he
    rcases List.mem_map.mp he with ⟨r, _, rfl⟩
    simp [isLoadResult]
  have hmapLen : List.countP (isRowGen i)
      ((d.recordGenerator row).records.map (Ev.rowGenerated i))
        = (d.recordGenerator row).records.length := by
    rw [List.countP_map]
    simp [Function.comp, isRowGen]
  have hmapTb : ∀ rows, Ev.transformingBatch i rows ∉
      ((d.recordGenerator row).records.map (Ev.rowGenerated i)) := by
    intro rows hmem
    rcases List.mem_map.mp hmem with ⟨r, _, h⟩
    exact Ev.noConfusion h
  rcases hg : (d.recordGenerator row).genError with _ | er <;>
    simp only [destAcceptRow, hg, acceptRecords_zero hbs]
  · exact ⟨by simp, hmap0, hmapLen, hmapTb⟩
  · refine ⟨by simp, ?_, ?_, ?_⟩
    · rw [List.countP_append, hmap0]
      simp [isLoadResult]
    · rw [List.countP_append, hmapLen]
      simp [isRowGen]
    · intro rows hmem
      rcases List.mem_append.mp hmem with h | h
      · exact hmapTb rows h
      · simp at h

theorem destAcceptRow_spec {i : Nat} {d : Destination} {row : Nat}
    {b : List Nat} (hbs : 0 < d.batchSize) (hb : b.length < d.batchSize) :
    (destAcceptRow i d row b).2.length
        = (b.length + (d.recordGenerator row).records.length) % d.batchSize
    ∧ List.countP (isRowGen i) (destAcceptRow i d row b).1
        = (d.recordGenerator row).records.length
    ∧ (GoodDest d →
        List.countP (isLoadResult i) (destAcceptRow i d row b).1
          = (b.length + (d.recordGenerator row).records.length)
              / d.batchSize)
    ∧ ∀ rows, Ev.transformingBatch i rows ∈ (destAcceptRow i d row b).1 →
        rows.length = d.batchSize := by
  obtain ⟨hlen, hgen, hload, hmem⟩ :=
    @acceptRecords_spec i d hbs (d.recordGenerator row).records b hb
  rcases hg : (d.recordGenerator row).genError with _ | er <;>
    simp only [destAcceptRow, hg]
  · exact ⟨hlen, hgen, hload, hmem⟩
  · refine ⟨hlen, ?_, ?_, ?_⟩
    · rw [List.countP_append, hgen]
      simp [isRowGen]
    · intro hgood
      rw [List.countP_append, hload hgood]
      simp [isLoadResult]
    · intro rows hm
      rcases List.mem_append.mp hm with h | h
      · exact hmem rows h
      · simp at h

theorem destAcceptRow_len_lt {i : Nat} {d : Destination} {row : Nat}
    {b : List Nat} (hbs : 0 < d.batchSize) (hb : b.length < d.batchSize) :
    (destAcceptRow i d row b).2.length < d.batchSize := by
  rw [(destAcceptRow_spec hbs hb).1]
  exact Nat.mod_lt _ hbs

theorem destAcceptRow_filter_self {i row : Nat} (d : Destination)
    (b : List Nat) :
    (destAcceptRow i d row b).1.filter (fun e => evTag e == some i)
      = (destAcceptRow i d row b).1 := by
  refine List.filter_eq_self.mpr ?_
  intro e he
  simp [destAcceptRow_tag e he]

theorem destAcceptRow_filter_other {i k row : Nat} (hne : k ≠ i)
    (d : Destination) (b : List Nat) :
    (destAcceptRow k d row b).1.filter (fun e => evTag e == some i)
      = [] := by
  refine List.filter_eq_nil_iff.mpr ?_
  intro e he
  simp [destAcceptRow_tag e he]
  omega

/-! ### Fan-out lemmas -/

theorem fanOut_tag {row : Nat} :
    ∀ (ps : List (Destination × List Nat)) (k : Nat),
      ∀ e ∈ (fanOut row k ps).1,
        ∃ j, evTag e = some j ∧ k ≤ j ∧ j < k + ps.length := by
  intro ps
  induction ps with
  | nil =>
      intro k e he
      simp [fanOut] at he
  | cons db rest ih =>
      intro k e he
      rcases db with ⟨d, b⟩
      simp only [fanOut] at he
      rcases List.mem_append.mp he with h | h
      · exact ⟨k, destAcceptRow_tag e h, Nat.le_refl k, by simp⟩
      · obtain ⟨j, hj, hk, hlt⟩ := ih (k + 1) e h
        exact ⟨j, hj, by omega, by simp; omega⟩

theorem fanOut_filter_lt {row i : Nat} :
    ∀ (ps : List (Destination × List Nat)) (k : Nat), i < k →
      (fanOut row k ps).1.filter (fun e => evTag e == some i) = [] := by
  intro ps k hik
  refine List.filter_eq_nil_iff.mpr ?_
  intro e he
  obtain ⟨j, hj, hk, _⟩ := fanOut_tag ps k e he
  simp [hj]
  omega

theorem fanOut_snd_get {row : Nat} :
    ∀ (ps : List (Destination × List Nat)) (k pIdx : Nat),
      ((fanOut row k ps).2)[pIdx]?
        = (ps[pIdx]?).map
            (fun db => (db.1, (destAcceptRow (k + pIdx) db.1 row db.2).2)) := by
  intro ps
  induction ps with
  | nil =>
      intro k pIdx
      simp [fanOut]
  | cons db rest ih =>
      intro k pIdx
      rcases db with ⟨d, b⟩
      rcases pIdx with _ | p
      · simp [fanOut]
      · simp only [fanOut]
        have hkp : k + (p + 1) = (k + 1) + p := by omega
        rw [hkp]
        simpa using ih (k + 1) p

theorem fanOut_snd_length {row : Nat} :
    ∀ (ps : List (Destination × List Nat)) (k : Nat),
      (fanOut row k ps).2.length = ps.length := by
  intro ps
  induction ps with
  | nil => intro k; simp [fanOut]
  | cons db rest ih =>
      intro k
      rcases db with ⟨d, b⟩
      simp [fanOut, ih]

theorem fanOut_count {row i : Nat} {p : Ev → Bool}
    (hp : ∀ e, p e = true → evTag e = some i) :
    ∀ (ps : List (Destination × List Nat)) (k pIdx : Nat)
      (d : Destination) (b : List Nat),
      ps[pIdx]? = some (d, b) → i = k + pIdx →
      List.countP p (fanOut row k ps).1
        = List.countP p (destAcceptRow i d row b).1 := by
  intro ps
  induction ps with
  | nil =>
      intro k pIdx d b hps _
      simp at hps
  | cons db rest ih =>
      intro k pIdx d b hps hi
      rcases db with ⟨d0, b0⟩
      rcases pIdx with _ | pI
      · simp at hps
        obtain ⟨rfl, rfl⟩ := hps
        simp only [fanOut, List.countP_append]
        have htail : List.countP p (fanOut row (k + 1) rest).1 = 0 := by
          refine List.countP_eq_zero.mpr ?_
          intro e he hpe
          obtain ⟨j, hj, hk1, _⟩ := fanOut_tag rest (k + 1) e he
          rw [hp e hpe] at hj
          have hij : i = j := by injection hj
          omega
        rw [htail]
        have hik : i = k := by omega
        subst hik
        simp
      · simp at hps
        simp only [fanOut, List.countP_append]
        have hhead : List.countP p (destAcceptRow k d0 row b0).1 = 0 := by
          refine List.countP_eq_zero.mpr ?_
          intro e he hpe
          have htag := destAcceptRow_tag e he
          rw [hp e hpe] at htag
          have hik : i = k := by injection htag
          omega
        rw [hhead]
        have step := ih (k + 1) pI d b (by simpa using hps) (by omega)
        simpa using step

theorem fanOut_tb_mem {row i : Nat} {rows : List Nat} :
    ∀ (ps : List (Destination × List Nat)) (k : Nat),
      Ev.transformingBatch i rows ∈ (fanOut row k ps).1 →
      ∃ pIdx d b, ps[pIdx]? = some (d, b) ∧ i = k + pIdx
        ∧ Ev.transformingBatch i rows ∈ (destAcceptRow i d row b).1 := by
  intro ps
  induction ps with
  | nil =>
      intro k hmem
      simp [fanOut] at hmem
  | cons db rest ih =>
      intro k hmem
      rcases db with ⟨d, b⟩
      simp only [fanOut] at hmem
      rcases List.mem_append.mp hmem with h | h
      · have htag := destAcceptRow_tag _ h
        have hik : i = k := by
          simp [evTag] at htag
          omega
        subst hik
        exact ⟨0, d, b, by simp, by simp, h⟩
      · obtain ⟨pIdx, d2, b2, hps, hi, hm⟩ := ih (k + 1) h
        exact ⟨pIdx + 1, d2, b2, by simpa using hps, by omega, hm⟩

theorem fanOut_mem_intro {row : Nat} {e : Ev} :
    ∀ (ps : List (Destination × List Nat)) (k pIdx : Nat)
      (d : Destination) (b : List Nat),
      ps[pIdx]? = some (d, b) →
      e ∈ (destAcceptRow (k + pIdx) d row b).1 →
      e ∈ (fanOut row k ps).1 := by
  intro ps
  induction ps with
  | nil =>
      intro k pIdx d b hps _
      simp at hps
  | cons db rest ih =>
      intro k pIdx d b hps hmem
      rcases db with ⟨d0, b0⟩
      rcases pIdx with _ | pI
      · simp at hps
        obtain ⟨rfl, rfl⟩ := hps
        simp only [fanOut]
        refine List.mem_append.mpr (Or.inl ?_)
        simpa using hmem
      · simp at hps
        simp only [fanOut]
        refine List.mem_append.mpr (Or.inr ?_)
        refine ih (k + 1) pI d b (by simpa using hps) ?_
        have hkp : k + 1 + pI = k + (pI + 1) := by omega
        rw [hkp]
        exact hmem

theorem fanOut_filter {row i : Nat} :
    ∀ (ps : List (Destination × List Nat)) (k pIdx : Nat)
      (d : Destination) (b : List Nat),
      ps[pIdx]? = some (d, b) → i = k + pIdx →
      (fanOut row k ps).1.filter (fun e => evTag e == some i)
        = (destAcceptRow i d row b).1 := by
  intro ps
  induction ps with
  | nil =>
      intro k pIdx d b hps _
      simp at hps
  | cons db rest ih =>
      intro k pIdx d b hps hi
      rcases db with ⟨d0, b0⟩
      rcases pIdx with _ | pI
      · simp at hps
        obtain ⟨rfl, rfl⟩ := hps
        have hik : i = k := by omega
        subst hik
        simp only [fanOut, List.filter_append]
        rw [destAcceptRow_filter_self, fanOut_filter_lt rest (i + 1) (by omega),
          List.append_nil]
      · simp at hps
        simp only [fanOut, List.filter_append]
        rw [destAcceptRow_filter_other (by omega) d0 b0]
        have step := ih (k + 1) pI d b (by simpa using hps) (by omega)
        simpa using step

end Bellboy

namespace Bellboy

/-! ### Row-balance bookkeeping -/

theorem rowNeutral_nil : RowNeutral [] := by
  constructor <;> rfl

theorem rowNeutral_closed {l : List Ev} (h : RowNeutral l) : RowClosed l := by
  refine ⟨?_, ?_⟩
  · intro n
    have hs : List.countP isStartRow (l.take n) ≤ List.countP isStartRow l :=
      List.Sublist.countP_le _ (List.take_sublist n l)
    have h1 := h.1
    omega
  · rw [h.1, h.2]

theorem rowClosed_append {a b : List Ev} (ha : RowClosed a)
    (hb : RowClosed b) : RowClosed (a ++ b) := by
  refine ⟨?_, ?_⟩
  · intro n
    rw [List.take_append_eq_append_take, List.countP_append,
      List.countP_append]
    by_cases hn : n ≤ a.length
    · have h0 : n - a.length = 0 := by omega
      rw [h0]
      simp only [List.take_zero, List.countP_nil]
      have := ha.1 n
      omega
    · have hta : a.take n = a := List.take_of_length_le (by omega)
      rw [hta]
      have h1 := hb.1 (n - a.length)
      have h2 := ha.2
      omega
  · rw [List.countP_append, List.countP_append, ha.2, hb.2]

theorem rowClosed_block {row : Nat} {mid : List Ev} (h : RowNeutral mid) :
    RowClosed (Ev.startProcessingRow row :: (mid ++ [Ev.endProcessingRow])) := by
  have hmidS : List.countP isStartRow (mid ++ [Ev.endProcessingRow]) = 0 := by
    rw [List.countP_append, h.1]
    simp [isStartRow]
  refine ⟨?_, ?_⟩
  · intro n
    rcases n with _ | m
    · simp
    · rw [List.take_succ_cons, List.countP_cons, List.countP_cons]
      have hs : List.countP isStartRow ((mid ++ [Ev.endProcessingRow]).take m)
          ≤ List.countP isStartRow (mid ++ [Ev.endProcessingRow]) :=
        List.Sublist.countP_le _ (List.take_sublist m _)
      rw [hmidS] at hs
      simp [isStartRow, isEndRow]
      omega
  · rw [List.countP_cons, List.countP_cons, hmidS, List.countP_append, h.2]
    simp [isStartRow, isEndRow]

/-! ### Arithmetic helpers -/

theorem div_mod_accum {bs : Nat} (hbs : 0 < bs) (a c : Nat) :
    a / bs + (a % bs + c) / bs = (a + c) / bs := by
  conv_rhs => rw [← Nat.div_add_mod a bs]
  rw [Nat.add_assoc, Nat.mul_add_div hbs]

theorem ceil_div_split {bs : Nat} (hbs : 0 < bs) (r : Nat) :
    r / bs + (if r % bs = 0 then 0 else 1) = (r + bs - 1) / bs := by
  have hqs : bs * (r / bs) + r % bs = r := Nat.div_add_mod r bs
  have hlt : r % bs < bs := Nat.mod_lt _ hbs
  have harg : r + bs - 1 = (r % bs + bs - 1) + bs * (r / bs) := by omega
  rw [harg, Nat.add_mul_div_left _ _ hbs]
  by_cases hz : r % bs = 0
  · have h0 : (r % bs + bs - 1) / bs = 0 := by
      rw [hz]
      exact Nat.div_eq_of_lt (by omega)
    rw [h0, if_pos hz]
    omega
  · have h1 : (r % bs + bs - 1) / bs = 1 :=
      Nat.div_eq_of_lt_le (by omega) (by omega)
    rw [h1, if_neg hz]
    omega

/-! ### Halt-bound characterization -/

theorem checkpointHalt_true_of {cfg : JobConfig} {bound n : Nat}
    (h : haltBound cfg = some bound) (hle : bound ≤ n) :
    checkpointHalt cfg n = true := by
  unfold haltBound at h
  unfold checkpointHalt stoppedAt
  rcases hs : cfg.stopAfter with _ | k <;> simp only [hs] at h ⊢
  · by_cases hK : 0 < cfg.rowLimit
    · rw [if_pos hK] at h
      injection h with h
      subst h
      simp [hK]
      omega
    · rw [if_neg hK] at h
      exact absurd h (by simp)
  · by_cases hK : 0 < cfg.rowLimit
    · rw [if_pos hK] at h
      injection h with h
      subst h
      simp [hK]
      omega
    · rw [if_neg hK] at h
      injection h with h
      subst h
      simp [hK]
      omega

theorem checkpointHalt_false_of {cfg : JobConfig} {bound n : Nat}
    (h : haltBound cfg = some bound) (hlt : n < bound) :
    checkpointHalt cfg n = false := by
  unfold haltBound at h
  unfold checkpointHalt stoppedAt
  rcases hs : cfg.stopAfter with _ | k <;> simp only [hs] at h ⊢
  · by_cases hK : 0 < cfg.rowLimit
    · rw [if_pos hK] at h
      injection h with h
      subst h
      simp [hK]
      omega
    · rw [if_neg hK] at h
      exact absurd h (by simp)
  · by_cases hK : 0 < cfg.rowLimit
    · rw [if_pos hK] at h
      injection h with h
      subst h
      simp [hK]
      omega
    · rw [if_neg hK] at h
      injection h with h
      subst h
      simp [hK]
      omega

theorem checkpointHalt_none {cfg : JobConfig}
    (h : haltBound cfg = none) (n : Nat) :
    checkpointHalt cfg n = false := by
  unfold haltBound at h
  unfold checkpointHalt stoppedAt
  rcases hs : cfg.stopAfter with _ | k <;> simp only [hs] at h ⊢
  · by_cases hK : 0 < cfg.rowLimit
    · rw [if_pos hK] at h
      exact absurd h (by simp)
    · simp [hK]
  · split at h <;> exact absurd h (by simp)

end Bellboy

namespace Bellboy

/-! ### Single-row processing lemmas -/

theorem rowClosed_nil : RowClosed ([] : List Ev) :=
  rowNeutral_closed rowNeutral_nil

theorem fanOut_rowNeutral {row : Nat} (ps : List (Destination × List Nat))
    (k : Nat) : RowNeutral (fanOut row k ps).1 := by
  constructor <;>
  · refine List.countP_eq_zero.mpr ?_
    intro e he
    obtain ⟨j, hj, _, _⟩ := fanOut_tag ps k e he
    simp [(notRow_of_tag hj).1, (notRow_of_tag hj).2]

theorem processRow_closed {row : Nat} {ps : List (Destination × List Nat)} :
    RowClosed (processRow row ps).1 := by
  simp only [processRow]
  exact rowClosed_block (fanOut_rowNeutral ps 0)

theorem processRow_startCount (row : Nat)
    (ps : List (Destination × List Nat)) :
    List.countP isStartRow (processRow row ps).1 = 1 := by
  simp only [processRow]
  rw [List.countP_cons, List.countP_append, (fanOut_rowNeutral ps 0).1]
  simp [isStartRow]

theorem processRow_count {row i : Nat} {p : Ev → Bool}
    (hp : ∀ e, p e = true → evTag e = some i)
    {ps : List (Destination × List Nat)} {d : Destination} {b : List Nat}
    (hps : ps[i]? = some (d, b)) :
    List.countP p (processRow row ps).1
      = List.countP p (destAcceptRow i d row b).1 := by
  have hstart : p (Ev.startProcessingRow row) = false := by
    by_cases hh : p (Ev.startProcessingRow row) = true
    · have := hp _ hh
      simp [evTag] at this
    · simpa using hh
  have hend : p Ev.endProcessingRow = false := by
    by_cases hh : p Ev.endProcessingRow = true
    · have := hp _ hh
      simp [evTag] at this
    · simpa using hh
  simp only [processRow]
  rw [List.countP_cons, List.countP_append,
    fanOut_count hp ps 0 i d b hps (by omega)]
  simp [hstart, hend]

theorem processRow_snd_get {row : Nat} (ps : List (Destination × List Nat))
    (pIdx : Nat) :
    (processRow row ps).2[pIdx]?
      = (ps[pIdx]?).map
          (fun db => (db.1, (destAcceptRow pIdx db.1 row db.2).2)) := by
  simp only [processRow]
  simpa using fanOut_snd_get ps 0 pIdx

theorem processRow_snd_length {row : Nat}
    (ps : List (Destination × List Nat)) :
    (processRow row ps).2.length = ps.length := by
  simp only [processRow]
  exact fanOut_snd_length ps 0

theorem processRow_tb_mem {row i : Nat} {rows : List Nat}
    {ps : List (Destination × List Nat)}
    (h : Ev.transformingBatch i rows ∈ (processRow row ps).1) :
    ∃ d b, ps[i]? = some (d, b)
      ∧ Ev.transformingBatch i rows ∈ (destAcceptRow i d row b).1 := by
  simp only [processRow] at h
  simp at h
  obtain ⟨pIdx, d, b, hps, hi, hm⟩ := fanOut_tb_mem ps 0 h
  have hpi : pIdx = i := by omega
  subst hpi
  exact ⟨d, b, hps, hm⟩

theorem processRow_mem_intro {row : Nat} {e : Ev}
    {ps : List (Destination × List Nat)} {pIdx : Nat} {d : Destination}
    {b : List Nat} (hps : ps[pIdx]? = some (d, b))
    (hm : e ∈ (destAcceptRow pIdx d row b).1) :
    e ∈ (processRow row ps).1 := by
  simp only [processRow]
  refine List.mem_cons_of_mem _ (List.mem_append.mpr (Or.inl ?_))
  exact fanOut_mem_intro ps 0 pIdx d b hps (by simpa using hm)

theorem processRow_filter {row i : Nat}
    {ps : List (Destination × List Nat)} {d : Destination} {b : List Nat}
    (hps : ps[i]? = some (d, b)) :
    (processRow row ps).1.filter (fun e => evTag e == some i)
      = (destAcceptRow i d row b).1 := by
  have h1 : (evTag (Ev.startProcessingRow row) == some i) = false := by
    simp [evTag]
  have h2 : (evTag Ev.endProcessingRow == some i) = false := by
    simp [evTag]
  simp only [processRow]
  rw [List.filter_cons, List.filter_append]
  simp only [h1, h2]
  rw [fanOut_filter ps 0 i d b hps (by omega)]
  simp [evTag]

/-! ### Row-loop lemmas -/

theorem runRows_closed (cfg : JobConfig) :
    ∀ (rows : List Nat) (st : LoopState),
      RowClosed (runRows cfg rows st).1 := by
  intro rows
  induction rows with
  | nil =>
      intro st
      simp only [runRows]
      exact rowClosed_nil
  | cons row rest ih =>
      intro st
      simp only [runRows]
      split
      · exact rowClosed_nil
      · exact rowClosed_append processRow_closed (ih _)

theorem runRows_rowCount_mono (cfg : JobConfig) :
    ∀ (rows : List Nat) (st : LoopState),
      st.rowCount ≤ ((runRows cfg rows st).2).rowCount := by
  intro rows
  induction rows with
  | nil =>
      intro st
      simp [runRows]
  | cons row rest ih =>
      intro st
      simp only [runRows]
      split
      · exact Nat.le_refl _
      · have hstep := ih ⟨(processRow row st.dstate).2, st.rowCount + 1⟩
        dsimp only at hstep ⊢
        omega

theorem runRows_startCount (cfg : JobConfig) :
    ∀ (rows : List Nat) (st : LoopState),
      List.countP isStartRow (runRows cfg rows st).1
        = ((runRows cfg rows st).2).rowCount - st.rowCount := by
  intro rows
  induction rows with
  | nil =>
      intro st
      simp [runRows]
  | cons row rest ih =>
      intro st
      simp only [runRows]
      split
      · simp
      · rw [List.countP_append, processRow_startCount, ih]
        have hmono :=
          runRows_rowCount_mono cfg rest
            ⟨(processRow row st.dstate).2, st.rowCount + 1⟩
        dsimp only at hmono ⊢
        omega

end Bellboy

namespace Bellboy

theorem runRows_rowCount_none {cfg : JobConfig}
    (h : haltBound cfg = none) :
    ∀ (rows : List Nat) (st : LoopState),
      ((runRows cfg rows st).2).rowCount = st.rowCount + rows.length := by
  intro rows
  induction rows with
  | nil =>
      intro st
      simp [runRows]
  | cons row rest ih =>
      intro st
      simp only [runRows]
      rw [if_neg (by simp [checkpointHalt_none h st.rowCount])]
      have hstep := ih ⟨(processRow row st.dstate).2, st.rowCount + 1⟩
      dsimp only at hstep ⊢
      rw [hstep]
      simp only [List.length_cons]
      omega

theorem runRows_rowCount_some {cfg : JobConfig} {bound : Nat}
    (h : haltBound cfg = some bound) :
    ∀ (rows : List Nat) (st : LoopState),
      ((runRows cfg rows st).2).rowCount
        = min (st.rowCount + rows.length) (max st.rowCount bound) := by
  intro rows
  induction rows with
  | nil =>
      intro st
      simp [runRows]
  | cons row rest ih =>
      intro st
      by_cases hhalt : bound ≤ st.rowCount
      · simp only [runRows]
        rw [if_pos (checkpointHalt_true_of h hhalt)]
        dsimp only
        omega
      · have hcf := checkpointHalt_false_of h
          (show st.rowCount < bound by omega)
        simp only [runRows]
        rw [if_neg (by simp [hcf])]
        have hstep := ih ⟨(processRow row st.dstate).2, st.rowCount + 1⟩
        dsimp only at hstep ⊢
        rw [hstep]
        simp only [List.length_cons]
        omega

theorem runRows_dest {cfg : JobConfig} {i : Nat} {d : Destination} :
    ∀ (rows : List Nat) (st : LoopState) (b : List Nat),
      st.dstate[i]? = some (d, b) →
      ∃ b2, ((runRows cfg rows st).2).dstate[i]? = some (d, b2)
        ∧ (0 < d.batchSize → b.length < d.batchSize →
            (b2.length = (b.length
                + List.countP (isRowGen i) (runRows cfg rows st).1)
                  % d.batchSize
             ∧ (GoodDest d →
                 List.countP (isLoadResult i) (runRows cfg rows st).1
                   = (b.length
                      + List.countP (isRowGen i) (runRows cfg rows st).1)
                       / d.batchSize)
             ∧ ∀ rws, Ev.transformingBatch i rws ∈ (runRows cfg rows st).1 →
                 rws.length = d.batchSize))
        ∧ (d.batchSize = 0 →
            (b2.length = b.length
                + List.countP (isRowGen i) (runRows cfg rows st).1
             ∧ List.countP (isLoadResult i) (runRows cfg rows st).1 = 0
             ∧ ∀ rws, Ev.transformingBatch i rws ∉ (runRows cfg rows st).1)) := by
  intro rows
  induction rows with
  | nil =>
      intro st b hps
      refine ⟨b, ?_, ?_, ?_⟩
      · simpa [runRows] using hps
      · intro hbs hb
        refine ⟨?_, ?_, ?_⟩
        · simp [runRows, Nat.mod_eq_of_lt hb]
        · intro _
          simp [runRows, Nat.div_eq_of_lt hb]
        · intro rws hmem
          simp [runRows] at hmem
      · intro hbs
        refine ⟨?_, ?_, ?_⟩
        · simp [runRows]
        · simp [runRows]
        · intro rws hmem
          simp [runRows] at hmem
  | cons row rest ih =>
      intro st b hps
      by_cases hhalt : checkpointHalt cfg st.rowCount = true
      · simp only [runRows]
        rw [if_pos hhalt]
        refine ⟨b, hps, ?_, ?_⟩
        · intro hbs hb
          refine ⟨?_, ?_, ?_⟩
          · simp [Nat.mod_eq_of_lt hb]
          · intro _
            simp [Nat.div_eq_of_lt hb]
          · intro rws hmem
            simp at hmem
        · intro hbs
          refine ⟨?_, ?_, ?_⟩
          · simp
          · simp
          · intro rws hmem
            simp at hmem
      · simp only [runRows]
        rw [if_neg hhalt]
        have hget1 : (processRow row st.dstate).2[i]?
            = some (d, (destAcceptRow i d row b).2) := by
          rw [processRow_snd_get st.dstate i, hps]
          rfl
        have hst1 : (⟨(processRow row st.dstate).2, st.rowCount + 1⟩
            : LoopState).dstate[i]? = some (d, (destAcceptRow i d row b).2) :=
          hget1
        obtain ⟨b2, hget2, hpos, hzero⟩ :=
          ih ⟨(processRow row st.dstate).2, st.rowCount + 1⟩
            (destAcceptRow i d row b).2 hst1
        refine ⟨b2, ?_, ?_, ?_⟩
        · dsimp only
          exact hget2
        · intro hbs hb
          obtain ⟨hlen1, hgen1, hload1, hmem1⟩ := destAcceptRow_spec hbs hb
          have hb1 : (destAcceptRow i d row b).2.length < d.batchSize :=
            destAcceptRow_len_lt hbs hb
          obtain ⟨hlen2, hload2, hmem2⟩ := hpos hbs hb1
          have hcg : List.countP (isRowGen i) (processRow row st.dstate).1
              = (d.recordGenerator row).records.length := by
            rw [processRow_count (fun e => isRowGen_tag) hps, hgen1]
          have hcl : GoodDest d →
              List.countP (isLoadResult i) (processRow row st.dstate).1
                = (b.length + (d.recordGenerator row).records.length)
                    / d.batchSize := by
            intro hgood
            rw [processRow_count (fun e => isLoadResult_tag) hps,
              hload1 hgood]
          refine ⟨?_, ?_, ?_⟩
          · dsimp only
            rw [List.countP_append, hcg, hlen2, hlen1]
            rw [Nat.mod_add_mod]
            congr 1
            omega
          · intro hgood
            dsimp only
            rw [List.countP_append, List.countP_append, hcg,
              hcl hgood, hload2 hgood, hlen1]
            rw [div_mod_accum hbs]
            congr 1
            omega
          · intro rws hmem
            dsimp only at hmem
            rcases List.mem_append.mp hmem with h | h
            · obtain ⟨d2, b3, hps2, hm2⟩ := processRow_tb_mem h
              rw [hps] at hps2
              injection hps2 with hps2
              cases hps2
              exact hmem1 rws hm2
            · exact hmem2 rws h
        · intro hbs
          obtain ⟨hlen1, hload1, hgen1, hmem1⟩ := destAcceptRow_zero_spec hbs
          obtain ⟨hlen2, hload2, hmem2⟩ := hzero hbs
          have hcg : List.countP (isRowGen i) (processRow row st.dstate).1
              = (d.recordGenerator row).records.length := by
            rw [processRow_count (fun e => isRowGen_tag) hps, hgen1]
          have hcl : List.countP (isLoadResult i) (processRow row st.dstate).1
              = 0 := by
            rw [processRow_count (fun e => isLoadResult_tag) hps, hload1]
          have hblen : (destAcceptRow i d row b).2.length
              = b.length + (d.recordGenerator row).records.length := by
            rw [hlen1]
            simp
          refine ⟨?_, ?_, ?_⟩
          · dsimp only
            rw [List.countP_append, hlen2, hblen, hcg]
            omega
          · dsimp only
            rw [List.countP_append, hcl, hload2]
          · intro rws hmem
            dsimp only at hmem
            rcases List.mem_append.mp hmem with h | h
            · obtain ⟨d2, b3, hps2, hm2⟩ := processRow_tb_mem h
              rw [hps] at hps2
              injection hps2 with hps2
              cases hps2
              exact hmem1 rws hm2
            · exact hmem2 rws h

end Bellboy

namespace Bellboy

/-! ### Stream-loop lemmas -/

theorem startEvs_rowNeutral (s : SourceStream) :
    RowNeutral (if s.rows.isEmpty then ([] : List Ev)
      else [Ev.startProcessingStream s.streamArgs]) := by
  split
  · exact rowNeutral_nil
  · constructor <;> simp [isStartRow, isEndRow]

theorem endStream_rowNeutral (args : List Nat) :
    RowNeutral [Ev.endProcessingStream args] := by
  constructor <;> simp [isStartRow, isEndRow]

theorem runStreams_closed (cfg : JobConfig) :
    ∀ (ss : List SourceStream) (st : LoopState),
      RowClosed (runStreams cfg ss st).1 := by
  intro ss
  induction ss with
  | nil =>
      intro st
      simp only [runStreams]
      exact rowClosed_nil
  | cons s rest ih =>
      intro st
      simp only [runStreams]
      split
      · exact rowClosed_nil
      · refine rowClosed_append
          (rowClosed_append
            (rowClosed_append
              (rowNeutral_closed (startEvs_rowNeutral s))
              (runRows_closed cfg s.rows st))
            (rowNeutral_closed (endStream_rowNeutral s.streamArgs)))
          (ih _)

theorem runStreams_rowCount_mono (cfg : JobConfig) :
    ∀ (ss : List SourceStream) (st : LoopState),
      st.rowCount ≤ ((runStreams cfg ss st).2).rowCount := by
  intro ss
  induction ss with
  | nil =>
      intro st
      simp [runStreams]
  | cons s rest ih =>
      intro st
      simp only [runStreams]
      split
      · exact Nat.le_refl _
      · show st.rowCount ≤ ((runStreams cfg rest
          (runRows cfg s.rows st).2).2).rowCount
        have h1 := runRows_rowCount_mono cfg s.rows st
        have h2 := ih (runRows cfg s.rows st).2
        omega

theorem runStreams_rowCount_none {cfg : JobConfig}
    (h : haltBound cfg = none) :
    ∀ (ss : List SourceStream) (st : LoopState),
      ((runStreams cfg ss st).2).rowCount
        = st.rowCount + (ss.map (fun s => s.rows.length)).sum := by
  intro ss
  induction ss with
  | nil =>
      intro st
      simp [runStreams]
  | cons s rest ih =>
      intro st
      simp only [runStreams]
      rw [if_neg (by simp [checkpointHalt_none h st.rowCount])]
      dsimp only
      rw [ih (runRows cfg s.rows st).2, runRows_rowCount_none h s.rows st]
      simp [List.sum_cons]
      omega

theorem runStreams_rowCount_some {cfg : JobConfig} {bound : Nat}
    (h : haltBound cfg = some bound) :
    ∀ (ss : List SourceStream) (st : LoopState),
      ((runStreams cfg ss st).2).rowCount
        = min (st.rowCount + (ss.map (fun s => s.rows.length)).sum)
            (max st.rowCount bound) := by
  intro ss
  induction ss with
  | nil =>
      intro st
      simp [runStreams]
  | cons s rest ih =>
      intro st
      by_cases hhalt : bound ≤ st.rowCount
      · simp only [runStreams]
        rw [if_pos (checkpointHalt_true_of h hhalt)]
        dsimp only
        omega
      · have hcf := checkpointHalt_false_of h
          (show st.rowCount < bound by omega)
        simp only [runStreams]
        rw [if_neg (by simp [hcf])]
        dsimp only
        rw [ih (runRows cfg s.rows st).2, runRows_rowCount_some h s.rows st]
        simp only [List.map_cons, List.sum_cons]
        omega

theorem runStreams_startCount (cfg : JobConfig) :
    ∀ (ss : List SourceStream) (st : LoopState),
      List.countP isStartRow (runStreams cfg ss st).1
        = ((runStreams cfg ss st).2).rowCount - st.rowCount := by
  intro ss
  induction ss with
  | nil =>
      intro st
      simp [runStreams]
  | cons s rest ih =>
      intro st
      simp only [runStreams]
      split
      · simp
      · show _ = ((runStreams cfg rest
            (runRows cfg s.rows st).2).2).rowCount - st.rowCount
        rw [List.countP_append, List.countP_append, List.countP_append,
          (startEvs_rowNeutral s).1, (endStream_rowNeutral s.streamArgs).1,
          runRows_startCount cfg s.rows st, ih (runRows cfg s.rows st).2]
        have h1 := runRows_rowCount_mono cfg s.rows st
        have h2 := runStreams_rowCount_mono cfg rest (runRows cfg s.rows st).2
        omega

theorem runStreams_dest {cfg : JobConfig} {i : Nat} {d : Destination} :
    ∀ (ss : List SourceStream) (st : LoopState) (b : List Nat),
      st.dstate[i]? = some (d, b) →
      ∃ b2, ((runStreams cfg ss st).2).dstate[i]? = some (d, b2)
        ∧ (0 < d.batchSize → b.length < d.batchSize →
            (b2.length = (b.length
                + List.countP (isRowGen i) (runStreams cfg ss st).1)
                  % d.batchSize
             ∧ (GoodDest d →
                 List.countP (isLoadResult i) (runStreams cfg ss st).1
                   = (b.length
                      + List.countP (isRowGen i) (runStreams cfg ss st).1)
                       / d.batchSize)
             ∧ ∀ rws, Ev.transformingBatch i rws ∈ (runStreams cfg ss st).1 →
                 rws.length = d.batchSize))
        ∧ (d.batchSize = 0 →
            (b2.length = b.length
                + List.countP (isRowGen i) (runStreams cfg ss st).1
             ∧ List.countP (isLoadResult i) (runStreams cfg ss st).1 = 0
             ∧ ∀ rws,
                 Ev.transformingBatch i rws ∉ (runStreams cfg ss st).1)) := by
  intro ss
  induction ss with
  | nil =>
      intro st b hps
      refine ⟨b, ?_, ?_, ?_⟩
      · simpa [runStreams] using hps
      · intro hbs hb
        refine ⟨?_, ?_, ?_⟩
        · simp [runStreams, Nat.mod_eq_of_lt hb]
        · intro _
          simp [runStreams, Nat.div_eq_of_lt hb]
        · intro rws hmem
          simp [runStreams] at hmem
      · intro hbs
        refine ⟨?_, ?_, ?_⟩
        · simp [runStreams]
        · simp [runStreams]
        · intro rws hmem
          simp [runStreams] at hmem
  | cons s rest ih =>
      intro st b hps
      by_cases hhalt : checkpointHalt cfg st.rowCount = true
      · simp only [runStreams]
        rw [if_pos hhalt]
        refine ⟨b, hps, ?_, ?_⟩
        · intro hbs hb
          refine ⟨?_, ?_, ?_⟩
          · simp [Nat.mod_eq_of_lt hb]
          · intro _
            simp [Nat.div_eq_of_lt hb]
          · intro rws hmem
            simp at hmem
        · intro hbs
          refine ⟨?_, ?_, ?_⟩
          · simp
          · simp
          · intro rws hmem
            simp at hmem
      · simp only [runStreams]
        rw [if_neg hhalt]
        obtain ⟨b1, hget1, hpos1, hzero1⟩ := runRows_dest s.rows st b hps
        obtain ⟨b2, hget2, hpos2, hzero2⟩ :=
          ih (runRows cfg s.rows st).2 b1 hget1
        have hSE0 : ∀ (p : Ev → Bool),
            (∀ e, p e = true → evTag e = some i) →
            List.countP p (if s.rows.isEmpty then ([] : List Ev)
              else [Ev.startProcessingStream s.streamArgs]) = 0 := by
          intro p hp
          split
          · rfl
          · refine List.countP_eq_zero.mpr ?_
            intro e he hpe
            simp at he
            subst he
            have := hp _ hpe
            simp [evTag] at this
        have hEE0 : ∀ (p : Ev → Bool),
            (∀ e, p e = true → evTag e = some i) →
            List.countP p [Ev.endProcessingStream s.streamArgs] = 0 := by
          intro p hp
          refine List.countP_eq_zero.mpr ?_
          intro e he hpe
          simp at he
          subst he
          have := hp _ hpe
          simp [evTag] at this
        have hSEtb : ∀ rws, Ev.transformingBatch i rws ∉
            (if s.rows.isEmpty then ([] : List Ev)
              else [Ev.startProcessingStream s.streamArgs]) := by
          intro rws hmem
          split at hmem
          · simp at hmem
          · simp at hmem
        have hEEtb : ∀ rws, Ev.transformingBatch i rws ∉
            [Ev.endProcessingStream s.streamArgs] := by
          intro rws hmem
          simp at hmem
        refine ⟨b2, ?_, ?_, ?_⟩
        · dsimp only
          exact hget2
        · intro hbs hb
          obtain ⟨hlen1, hload1, hmem1⟩ := hpos1 hbs hb
          have hb1 : b1.length < d.batchSize := by
            rw [hlen1]
            exact Nat.mod_lt _ hbs
          obtain ⟨hlen2, hload2, hmem2⟩ := hpos2 hbs hb1
          refine ⟨?_, ?_, ?_⟩
          · dsimp only
            rw [List.countP_append, List.countP_append, List.countP_append,
              hSE0 _ (fun e => isRowGen_tag),
              hEE0 _ (fun e => isRowGen_tag), hlen2, hlen1]
            rw [Nat.mod_add_mod]
            congr 1
            omega
          · intro hgood
            dsimp only
            rw [List.countP_append, List.countP_append, List.countP_append,
              List.countP_append, List.countP_append, List.countP_append,
              hSE0 _ (fun e => isRowGen_tag),
              hEE0 _ (fun e => isRowGen_tag),
              hSE0 _ (fun e => isLoadResult_tag),
              hEE0 _ (fun e => isLoadResult_tag),
              hload1 hgood, hload2 hgood, hlen1]
            simp only [Nat.zero_add, Nat.add_zero]
            rw [div_mod_accum hbs]
            congr 1
            omega
          · intro rws hmem
            dsimp only at hmem
            rcases List.mem_append.mp hmem with h | h
            · rcases List.mem_append.mp h with h2 | h2
              · rcases List.mem_append.mp h2 with h3 | h3
                · exact absurd h3 (hSEtb rws)
                · exact hmem1 rws h3
              · exact absurd h2 (hEEtb rws)
            · exact hmem2 rws h
        · intro hbs
          obtain ⟨hlen1, hload1, hmem1⟩ := hzero1 hbs
          obtain ⟨hlen2, hload2, hmem2⟩ := hzero2 hbs
          refine ⟨?_, ?_, ?_⟩
          · dsimp only
            rw [List.countP_append, List.countP_append, List.countP_append,
              hSE0 _ (fun e => isRowGen_tag),
              hEE0 _ (fun e => isRowGen_tag), hlen2, hlen1]
            omega
          · dsimp only
            rw [List.countP_append, List.countP_append, List.countP_append,
              hSE0 _ (fun e => isLoadResult_tag),
              hEE0 _ (fun e => isLoadResult_tag), hload1, hload2]
          · intro rws hmem
            dsimp only at hmem
            rcases List.mem_append.mp hmem with h | h
            · rcases List.mem_append.mp h with h2 | h2
              · rcases List.mem_append.mp h2 with h3 | h3
                · exact absurd h3 (hSEtb rws)
                · exact hmem1 rws h3
              · exact absurd h2 (hEEtb rws)
            · exact hmem2 rws h

end Bellboy

namespace Bellboy

/-! ### Finalization lemmas -/

theorem finalizeDest_tag {i : Nat} {d : Destination} {b : List Nat}
    {e : Ev} (he : e ∈ finalizeDest i d b) : evTag e = some i := by
  unfold finalizeDest at he
  split at he
  · simp at he
  · exact flushBatch_tag he

theorem finalizeDest_rowGen_count (i j : Nat) (d : Destination)
    (b : List Nat) :
    List.countP (isRowGen j) (finalizeDest i d b) = 0 := by
  unfold finalizeDest
  split
  · rfl
  · exact flushBatch_rowGen_count i j d b

theorem finalizeDest_empty {i : Nat} {d : Destination} :
    finalizeDest i d [] = [] := by
  simp [finalizeDest]

theorem finalizeDest_loadCount {i : Nat} {d : Destination} {b : List Nat}
    (hgood : GoodDest d) (hb : b ≠ []) :
    List.countP (isLoadResult i) (finalizeDest i d b) = 1 := by
  unfold finalizeDest
  rw [if_neg (by simpa using hb)]
  exact flushBatch_loadResult_count hgood hb

theorem finalizeDest_tb_mem {i j : Nat} {d : Destination} {b rows : List Nat}
    (h : Ev.transformingBatch j rows ∈ finalizeDest i d b) :
    j = i ∧ rows = b ∧ b ≠ [] := by
  unfold finalizeDest at h
  split at h
  · simp at h
  · obtain ⟨h1, h2⟩ := flushBatch_transformingBatch_mem h
    refine ⟨h1, h2, ?_⟩
    intro hb
    subst hb
    simp at *

theorem finalizeAll_tag :
    ∀ (ps : List (Destination × List Nat)) (k : Nat),
      ∀ e ∈ finalizeAll k ps,
        ∃ j, evTag e = some j ∧ k ≤ j ∧ j < k + ps.length := by
  intro ps
  induction ps with
  | nil =>
      intro k e he
      simp [finalizeAll] at he
  | cons db rest ih =>
      intro k e he
      rcases db with ⟨d, b⟩
      simp only [finalizeAll] at he
      rcases List.mem_append.mp he with h | h
      · exact ⟨k, finalizeDest_tag h, Nat.le_refl k, by simp⟩
      · obtain ⟨j, hj, hk, hlt⟩ := ih (k + 1) e h
        exact ⟨j, hj, by omega, by simp; omega⟩

theorem finalizeAll_rowNeutral (ps : List (Destination × List Nat))
    (k : Nat) : RowNeutral (finalizeAll k ps) := by
  constructor <;>
  · refine List.countP_eq_zero.mpr ?_
    intro e he
    obtain ⟨j, hj, _, _⟩ := finalizeAll_tag ps k e he
    simp [(notRow_of_tag hj).1, (notRow_of_tag hj).2]

theorem finalizeAll_count {i : Nat} {p : Ev → Bool}
    (hp : ∀ e, p e = true → evTag e = some i) :
    ∀ (ps : List (Destination × List Nat)) (k pIdx : Nat)
      (d : Destination) (b : List Nat),
      ps[pIdx]? = some (d, b) → i = k + pIdx →
      List.countP p (finalizeAll k ps)
        = List.countP p (finalizeDest i d b) := by
  intro ps
  induction ps with
  | nil =>
      intro k pIdx d b hps _
      simp at hps
  | cons db rest ih =>
      intro k pIdx d b hps hi
      rcases db with ⟨d0, b0⟩
      rcases pIdx with _ | pI
      · simp at hps
        obtain ⟨rfl, rfl⟩ := hps
        simp only [finalizeAll, List.countP_append]
        have htail : List.countP p (finalizeAll (k + 1) rest) = 0 := by
          refine List.countP_eq_zero.mpr ?_
          intro e he hpe
          obtain ⟨j, hj, hk1, _⟩ := finalizeAll_tag rest (k + 1) e he
          rw [hp e hpe] at hj
          have hij : i = j := by injection hj
          omega
        rw [htail]
        have hik : i = k := by omega
        subst hik
        simp
      · simp at hps
        simp only [finalizeAll, List.countP_append]
        have hhead : List.countP p (finalizeDest k d0 b0) = 0 := by
          refine List.countP_eq_zero.mpr ?_
          intro e he hpe
          have htag := finalizeDest_tag he
          rw [hp e hpe] at htag
          have hik : i = k := by injection htag
          omega
        rw [hhead]
        have step := ih (k + 1) pI d b (by simpa using hps) (by omega)
        simpa using step

theorem finalizeAll_tb_mem {i : Nat} {rows : List Nat} :
    ∀ (ps : List (Destination × List Nat)) (k : Nat),
      Ev.transformingBatch i rows ∈ finalizeAll k ps →
      ∃ pIdx d b, ps[pIdx]? = some (d, b) ∧ i = k + pIdx
        ∧ Ev.transformingBatch i rows ∈ finalizeDest i d b := by
  intro ps
  induction ps with
  | nil =>
      intro k hmem
      simp [finalizeAll] at hmem
  | cons db rest ih =>
      intro k hmem
      rcases db with ⟨d, b⟩
      simp only [finalizeAll] at hmem
      rcases List.mem_append.mp hmem with h | h
      · have htag := finalizeDest_tag h
        have hik : i = k := by
          simp [evTag] at htag
          omega
        subst hik
        exact ⟨0, d, b, by simp, by simp, h⟩
      · obtain ⟨pIdx, d2, b2, hps, hi, hm⟩ := ih (k + 1) h
        exact ⟨pIdx + 1, d2, b2, by simpa using hps, by omega, hm⟩

/-! ### Error-report and whole-job bookkeeping -/

theorem errEvents_rowNeutral (o : Option Nat) : RowNeutral (errEvents o) := by
  rcases o with _ | e <;> constructor <;> simp [errEvents, isStartRow, isEndRow]

theorem errEvents_count_zero {i : Nat} (o : Option Nat) (p : Ev → Bool)
    (hp : ∀ e, p e = true → evTag e = some i) :
    List.countP p (errEvents o) = 0 := by
  rcases o with _ | e
  · rfl
  · refine List.countP_eq_zero.mpr ?_
    intro x hx hpx
    simp [errEvents] at hx
    subst hx
    have := hp _ hpx
    simp [evTag] at this

theorem errEvents_tb_not_mem {i : Nat} {rows : List Nat} (o : Option Nat) :
    Ev.transformingBatch i rows ∉ errEvents o := by
  rcases o with _ | e <;> simp [errEvents]

theorem initState_get {cfg : JobConfig} {i : Nat} {d : Destination}
    (hd : cfg.destinations[i]? = some d) :
    (initState cfg).dstate[i]? = some (d, ([] : List Nat)) := by
  unfold initState
  dsimp only
  rw [List.getElem?_map, hd]
  rfl

theorem streamPhase_rowCount (cfg : JobConfig) :
    ((streamPhase cfg).2).rowCount = expectedRows cfg := by
  rcases hb : haltBound cfg with _ | bound
  · unfold streamPhase
    rw [runStreams_rowCount_none hb cfg.streams (initState cfg)]
    simp [expectedRows, hb, totalRows, initState]
  · unfold streamPhase
    rw [runStreams_rowCount_some hb cfg.streams (initState cfg)]
    simp [expectedRows, hb, totalRows, initState]

theorem streamPhase_startCount (cfg : JobConfig) :
    List.countP isStartRow (streamPhase cfg).1 = expectedRows cfg := by
  have hrc := streamPhase_rowCount cfg
  unfold streamPhase at hrc ⊢
  rw [runStreams_startCount cfg cfg.streams (initState cfg), hrc]
  simp [initState]

theorem jobTrace_startCount (cfg : JobConfig) :
    List.countP isStartRow (jobTrace cfg) = expectedRows cfg := by
  unfold jobTrace
  rw [List.countP_cons, List.countP_append, List.countP_append,
    List.countP_append, streamPhase_startCount,
    (errEvents_rowNeutral (jobFatal cfg)).1,
    (finalizeAll_rowNeutral ((streamPhase cfg).2).dstate 0).1]
  simp [isStartRow]

end Bellboy

namespace Bellboy

/-! ### Whole-run helpers -/

theorem runJob_trace_eq (cfg : JobConfig) :
    (runJob cfg).trace = jobTrace cfg := rfl

theorem runJob_outcome_eq (cfg : JobConfig) :
    (runJob cfg).outcome = (match jobFatal cfg with
      | some e => Except.error e
      | none => Except.ok ()) := rfl

theorem stoppedAt_of_none {cfg : JobConfig} (hs : cfg.stopAfter = none)
    (n : Nat) : stoppedAt cfg n = false := by
  simp [stoppedAt, hs]

theorem jobFatal_clean {cfg : JobConfig} (ha : cfg.adapterError = none)
    (hs : cfg.stopAfter = none) : jobFatal cfg = none := by
  unfold jobFatal fatalError
  rw [stoppedAt_of_none hs]
  simp [ha]

theorem jobTrace_closed (cfg : JobConfig) : RowClosed (jobTrace cfg) := by
  have h1 : RowNeutral [Ev.startProcessing] := by
    constructor <;> simp [isStartRow, isEndRow]
  have h2 : RowNeutral [Ev.endProcessing] := by
    constructor <;> simp [isStartRow, isEndRow]
  have hbig : RowClosed ((streamPhase cfg).1 ++ errEvents (jobFatal cfg)
      ++ finalizeAll 0 ((streamPhase cfg).2).dstate ++ [Ev.endProcessing]) :=
    rowClosed_append
      (rowClosed_append
        (rowClosed_append (runStreams_closed cfg cfg.streams (initState cfg))
          (rowNeutral_closed (errEvents_rowNeutral _)))
        (rowNeutral_closed (finalizeAll_rowNeutral _ _)))
      (rowNeutral_closed h2)
  have hall := rowClosed_append (rowNeutral_closed h1) hbig
  unfold jobTrace
  simpa using hall

/-- Claim C1: rows are processed strictly one at a time: in every prefix
of a run's event trace, the number of `startProcessingRow` events exceeds
the number of `endProcessingRow` events by at most one, so
`startProcessingRow` for row N+1 is never emitted before
`endProcessingRow` for row N. -/
theorem rows_processed_one_at_a_time (cfg : JobConfig) (n : Nat) :
    List.countP isStartRow ((runJob cfg).trace.take n)
      ≤ List.countP isEndRow ((runJob cfg).trace.take n) + 1 := by
  rw [runJob_trace_eq]
  exact (jobTrace_closed cfg).1 n

/-- Claim C4 (amended): a `rowLimit` of K > 0 caps the number of
`startProcessingRow` events at K: the count equals `min (totalRows) K`,
so it is exactly K whenever the source supplies at least K rows, and the
orchestrator accepts no row beyond the cap. -/
theorem row_limit_caps_rows (cfg : JobConfig) (K : Nat)
    (hs : cfg.stopAfter = none) (hK : cfg.rowLimit = K) (hKpos : 0 < K) :
    List.countP isStartRow (runJob cfg).trace = min (totalRows cfg) K := by
  rw [runJob_trace_eq, jobTrace_startCount]
  have hb : haltBound cfg = some K := by
    simp [haltBound, hs, hK, hKpos]
  simp [expectedRows, hb]

/-- Claim C4, counterexample to the claim as stated: with `rowLimit = 2`
over a source of a single row, only one `startProcessingRow` event is
emitted, not exactly K = 2. -/
theorem row_limit_exact_count_cex :
    ¬ (List.countP isStartRow (runJob shortSrcCfg).trace = 2) := by
  decide

/-- Claim C4, witness. -/
theorem row_limit_caps_rows_witness :
    List.countP isStartRow (runJob longSrcCfg).trace
      = min (totalRows longSrcCfg) 2 :=
  row_limit_caps_rows longSrcCfg 2 rfl rfl (by decide)

/-- Claim C5: `run()` resolves normally on clean completion, with no
assumption whatsoever on batch transformations or loads succeeding; it
rejects only for fatal causes: a stop with an error message (carrying
that message) or a source-adapter error (carrying that error). -/
theorem run_outcome_semantics (cfg : JobConfig) :
    (cfg.adapterError = none → cfg.stopAfter = none →
      (runJob cfg).outcome = Except.ok ())
    ∧ (∀ k m, cfg.stopAfter = some k → cfg.stopMessage = some m →
        k ≤ totalRows cfg → (cfg.rowLimit = 0 ∨ k ≤ cfg.rowLimit) →
        (runJob cfg).outcome = Except.error m)
    ∧ (∀ e, cfg.adapterError = some e → cfg.stopAfter = none →
        cfg.rowLimit = 0 → (runJob cfg).outcome = Except.error e) := by
  refine ⟨?_, ?_, ?_⟩
  · intro ha hs
    rw [runJob_outcome_eq, jobFatal_clean ha hs]
  · intro k m hk hm hkt hkl
    have hbound : haltBound cfg = some k := by
      unfold haltBound
      simp only [hk]
      by_cases hKp : 0 < cfg.rowLimit
      · rw [if_pos hKp]
        have hmin : min cfg.rowLimit k = k := by omega
        rw [hmin]
      · rw [if_neg hKp]
    have hexp : expectedRows cfg = k := by
      simp [expectedRows, hbound]
      omega
    have hfatal : jobFatal cfg = some m := by
      unfold jobFatal fatalError
      rw [streamPhase_rowCount, hexp]
      have hstop : stoppedAt cfg k = true := by
        simp [stoppedAt, hk]
      rw [hstop]
      simp [hm]
    rw [runJob_outcome_eq, hfatal]
  · intro e ha hs hK0
    have hfatal : jobFatal cfg = some e := by
      unfold jobFatal fatalError
      rw [stoppedAt_of_none hs]
      simp [ha, hK0]
    rw [runJob_outcome_eq, hfatal]

/-- Claim C5, witness: a run whose every load fails still resolves; a run
stopped with message 42 rejects with 42; a run whose adapter raises 8
rejects with 8. -/
theorem run_outcome_semantics_witness :
    (runJob failLoadCfg).outcome = Except.ok ()
    ∧ (runJob stopCfg).outcome = Except.error 42
    ∧ (runJob adapterErrCfg).outcome = Except.error 8 :=
  ⟨(run_outcome_semantics failLoadCfg).1 rfl rfl,
   (run_outcome_semantics stopCfg).2.1 2 42 rfl rfl (by decide) (Or.inl rfl),
   (run_outcome_semantics adapterErrCfg).2.2 8 rfl rfl rfl⟩

end Bellboy

namespace Bellboy

/-! ### Per-destination whole-run bookkeeping -/

theorem finalizeAll_rowGen_count (j : Nat) :
    ∀ (ps : List (Destination × List Nat)) (k : Nat),
      List.countP (isRowGen j) (finalizeAll k ps) = 0 := by
  intro ps
  induction ps with
  | nil =>
      intro k
      rfl
  | cons db rest ih =>
      intro k
      rcases db with ⟨d, b⟩
      simp only [finalizeAll]
      rw [List.countP_append, finalizeDest_rowGen_count, ih]

theorem jobTrace_rowGen_count (cfg : JobConfig) (i : Nat) :
    List.countP (isRowGen i) (jobTrace cfg)
      = List.countP (isRowGen i) (streamPhase cfg).1 := by
  unfold jobTrace
  rw [List.countP_cons, List.countP_append, List.countP_append,
    List.countP_append, errEvents_count_zero _ _ (fun e => isRowGen_tag),
    finalizeAll_rowGen_count]
  simp [isRowGen]

theorem jobTrace_loadResult_split (cfg : JobConfig) (i : Nat) :
    List.countP (isLoadResult i) (jobTrace cfg)
      = List.countP (isLoadResult i) (streamPhase cfg).1
        + List.countP (isLoadResult i)
            (finalizeAll 0 ((streamPhase cfg).2).dstate) := by
  unfold jobTrace
  rw [List.countP_cons, List.countP_append, List.countP_append,
    List.countP_append, errEvents_count_zero _ _ (fun e => isLoadResult_tag)]
  simp [isLoadResult]

theorem streamPhase_dest {cfg : JobConfig} {i : Nat} {d : Destination}
    (hd : cfg.destinations[i]? = some d) :
    ∃ b2, ((streamPhase cfg).2).dstate[i]? = some (d, b2)
      ∧ (0 < d.batchSize →
          (b2.length
              = (List.countP (isRowGen i) (streamPhase cfg).1) % d.batchSize
           ∧ (GoodDest d →
               List.countP (isLoadResult i) (streamPhase cfg).1
                 = (List.countP (isRowGen i) (streamPhase cfg).1)
                     / d.batchSize)
           ∧ ∀ rws, Ev.transformingBatch i rws ∈ (streamPhase cfg).1 →
               rws.length = d.batchSize))
      ∧ (d.batchSize = 0 →
          (b2.length = List.countP (isRowGen i) (streamPhase cfg).1
           ∧ List.countP (isLoadResult i) (streamPhase cfg).1 = 0
           ∧ ∀ rws, Ev.transformingBatch i rws ∉ (streamPhase cfg).1)) := by
  obtain ⟨b2, hget, hpos, hzero⟩ :=
    @runStreams_dest cfg i d cfg.streams (initState cfg) []
      (initState_get hd)
  refine ⟨b2, hget, ?_, ?_⟩
  · intro hbs
    obtain ⟨hlen, hload, hmem⟩ := hpos hbs (by simpa using hbs)
    exact ⟨by simpa using hlen, fun hg => by simpa using hload hg, hmem⟩
  · intro hbs
    obtain ⟨hlen, hload, hmem⟩ := hzero hbs
    exact ⟨by simpa using hlen, hload, hmem⟩

/-- Claim C2 (amended): for a destination whose load is enabled and whose
batch transformer, when configured, always succeeds with a non-empty
payload, the total number of `loadedBatch` plus `loadingBatchError`
events equals `ceil(recordsGenerated / batchSize)` when `batchSize > 0`
(as naturals, `(r + batchSize - 1) / batchSize`), and exactly 1 — the
finalization flush — when `batchSize` is 0/unset and at least one record
was generated.  `recordsGenerated` is the number of `rowGenerated`
events, i.e. the records the destination's generator produced. -/
theorem load_event_count_eq_ceil (cfg : JobConfig) (i : Nat)
    (d : Destination) (hd : cfg.destinations[i]? = some d)
    (hgood : GoodDest d) :
    (0 < d.batchSize →
      List.countP (isLoadResult i) (runJob cfg).trace
        = (List.countP (isRowGen i) (runJob cfg).trace + d.batchSize - 1)
            / d.batchSize)
    ∧ (d.batchSize = 0 → 0 < List.countP (isRowGen i) (runJob cfg).trace →
      List.countP (isLoadResult i) (runJob cfg).trace = 1) := by
  obtain ⟨b2, hget, hpos, hzero⟩ := streamPhase_dest hd
  have hfin : List.countP (isLoadResult i)
      (finalizeAll 0 ((streamPhase cfg).2).dstate)
        = List.countP (isLoadResult i) (finalizeDest i d b2) :=
    finalizeAll_count (fun e => isLoadResult_tag) _ 0 i d b2 hget (by omega)
  constructor
  · intro hbs
    obtain ⟨hlen, hload, _⟩ := hpos hbs
    rw [runJob_trace_eq, jobTrace_loadResult_split, jobTrace_rowGen_count,
      hfin, hload hgood]
    by_cases hmod : List.countP (isRowGen i) (streamPhase cfg).1
        % d.batchSize = 0
    · have hb2 : b2 = [] := by
        refine List.length_eq_zero.mp ?_
        rw [hlen, hmod]
      rw [hb2, finalizeDest_empty, List.countP_nil]
      have := ceil_div_split hbs (List.countP (isRowGen i) (streamPhase cfg).1)
      rw [if_pos hmod] at this
      omega
    · have hb2 : b2 ≠ [] := by
        intro hb
        subst hb
        simp at hlen
        exact hmod hlen.symm
      rw [finalizeDest_loadCount hgood hb2]
      have := ceil_div_split hbs (List.countP (isRowGen i) (streamPhase cfg).1)
      rw [if_neg hmod] at this
      omega
  · intro hbs hpos1
    obtain ⟨hlen, hload, _⟩ := hzero hbs
    rw [runJob_trace_eq, jobTrace_rowGen_count] at hpos1
    have hb2 : b2 ≠ [] := by
      intro hb
      subst hb
      simp at hlen
      omega
    rw [runJob_trace_eq, jobTrace_loadResult_split, hfin, hload,
      finalizeDest_loadCount hgood hb2]

/-- Claim C2, counterexample to the claim as stated: a destination with
`disableLoad = true` and `batchSize = 1` generates one record, so the
claim predicts `ceil(1/1) = 1` load-result event, but none is emitted —
load-disabled destinations emit no `loadedBatch`/`loadingBatchError` at
all. -/
theorem load_event_count_claim_cex :
    ¬ (List.countP (isLoadResult 0) (runJob noLoadCfg).trace
        = (List.countP (isRowGen 0) (runJob noLoadCfg).trace
            + noLoadDest.batchSize - 1) / noLoadDest.batchSize) := by
  decide

/-- Claim C2, witness. -/
theorem load_event_count_eq_ceil_witness :
    List.countP (isLoadResult 0) (runJob exCfg).trace
      = (List.countP (isRowGen 0) (runJob exCfg).trace + 2 - 1) / 2
    ∧ List.countP (isLoadResult 0) (runJob unboundedCfg).trace = 1 :=
  ⟨(load_event_count_eq_ceil exCfg 0 exDest rfl
      ⟨rfl, fun f hf => Option.noConfusion hf⟩).1 (by decide),
   (load_event_count_eq_ceil unboundedCfg 0 unboundedDest rfl
      ⟨rfl, fun f hf => Option.noConfusion hf⟩).2 rfl (by decide)⟩

/-- Claim C3: for a destination with `batchSize > 0`, every mid-stream
flush carries a batch of exactly `batchSize` records, every flushed batch
of the whole run (finalization included) is non-empty and never exceeds
`batchSize`, and `acceptRow` always returns with a strictly less than
full batch — the flush fires the instant the bound is reached; with
`batchSize` 0/unset, no flush ever happens during the stream phase. -/
theorem batch_bound_invariant (cfg : JobConfig) (i : Nat) (d : Destination)
    (hd : cfg.destinations[i]? = some d) :
    (0 < d.batchSize →
      (∀ rows, Ev.transformingBatch i rows ∈ (streamPhase cfg).1 →
        rows.length = d.batchSize)
      ∧ (∀ rows, Ev.transformingBatch i rows ∈ (runJob cfg).trace →
        0 < rows.length ∧ rows.length ≤ d.batchSize)
      ∧ (∀ row b, b.length < d.batchSize →
        ((destAcceptRow i d row b).2).length < d.batchSize))
    ∧ (d.batchSize = 0 →
      ∀ rows, Ev.transformingBatch i rows ∉ (streamPhase cfg).1) := by
  obtain ⟨b2, hget, hpos, hzero⟩ := streamPhase_dest hd
  constructor
  · intro hbs
    obtain ⟨hlen, _, hmemphase⟩ := hpos hbs
    refine ⟨hmemphase, ?_, ?_⟩
    · intro rows hmem
      rw [runJob_trace_eq] at hmem
      unfold jobTrace at hmem
      simp only [List.mem_cons, List.mem_append, List.mem_singleton] at hmem
      rcases hmem with h | (((h | h) | h) | h)
      · exact absurd h (by simp)
      · have := hmemphase rows h
        omega
      · exact absurd h (errEvents_tb_not_mem _)
      · obtain ⟨pIdx, d2, b3, hps2, hi2, hm2⟩ := finalizeAll_tb_mem _ 0 h
        have hpi : pIdx = i := by omega
        subst hpi
        rw [hget] at hps2
        injection hps2 with hps2
        cases hps2
        obtain ⟨_, hrows, hb3⟩ := finalizeDest_tb_mem hm2
        subst hrows
        have hlt : rows.length < d.batchSize := by
          rw [hlen]
          exact Nat.mod_lt _ hbs
        have hp : 0 < rows.length := List.length_pos.mpr hb3
        omega
      · exact absurd h (by simp)
    · intro row b hb
      exact destAcceptRow_len_lt hbs hb
  · intro hbs rows
    exact (hzero hbs).2.2 rows

/-- Claim C3, witness. -/
theorem batch_bound_invariant_witness :
    ((destAcceptRow 0 exDest 9 [5]).2).length < 2
    ∧ (([1, 2] : List Nat)).length = 2
    ∧ Ev.transformingBatch 0 [1] ∉ (streamPhase unboundedCfg).1 := by
  have h1 := batch_bound_invariant exCfg 0 exDest rfl
  have h2 := batch_bound_invariant unboundedCfg 0 unboundedDest rfl
  exact ⟨(h1.1 (by decide)).2.2 9 [5] (by decide),
    (h1.1 (by decide)).1 [1, 2] (by decide),
    h2.2 rfl [1]⟩

end Bellboy

namespace Bellboy

/-! ### Generator-failure isolation -/

theorem destAcceptRow_genError_mem {i : Nat} {d : Destination} {row : Nat}
    {b : List Nat} {er : Nat}
    (he : (d.recordGenerator row).genError = some er) :
    Ev.rowGenerationError i row er ∈ (destAcceptRow i d row b).1 := by
  simp only [destAcceptRow, he]
  exact List.mem_append_right _ (by simp)

/-- Claim C6: when destination j's record generator raises on a row, the
job emits `rowGenerationError(j, row, error)`, yet every destination's
events and batch for that row are exactly its own engine's output — a
function of its own configuration and batch only — the row fan-out still
runs to completion ending in `endProcessingRow`, and at the job level the
number of rows pulled and the clean-completion outcome are determined by
the source and limits alone, unaffected by generator failures. -/
theorem generator_error_isolated (row : Nat)
    (ps : List (Destination × List Nat)) (j : Nat) (dj : Destination)
    (bj : List Nat) (er : Nat)
    (hj : ps[j]? = some (dj, bj))
    (he : (dj.recordGenerator row).genError = some er) :
    Ev.rowGenerationError j row er ∈ (processRow row ps).1
    ∧ (∀ i di bi, ps[i]? = some (di, bi) →
        ((processRow row ps).2[i]? = some (di, (destAcceptRow i di row bi).2)
         ∧ (processRow row ps).1.filter (fun e => evTag e == some i)
             = (destAcceptRow i di row bi).1))
    ∧ (∃ mid, (processRow row ps).1
        = Ev.startProcessingRow row :: (mid ++ [Ev.endProcessingRow]))
    ∧ (∀ cfg : JobConfig,
        List.countP isStartRow (runJob cfg).trace = expectedRows cfg
        ∧ (cfg.adapterError = none → cfg.stopAfter = none →
            (runJob cfg).outcome = Except.ok ())) := by
  refine ⟨?_, ?_, ?_, ?_⟩
  · exact processRow_mem_intro hj (destAcceptRow_genError_mem he)
  · intro i di bi hpsi
    constructor
    · rw [processRow_snd_get ps i, hpsi]
      rfl
    · exact processRow_filter hpsi
  · exact ⟨(fanOut row 0 ps).1, rfl⟩
  · intro cfg
    constructor
    · rw [runJob_trace_eq, jobTrace_startCount]
    · intro ha hs
      rw [runJob_outcome_eq, jobFatal_clean ha hs]

/-- Claim C6, witness: with a healthy destination 0 and a destination 1
whose generator raises 99 on row 3, processing row 3 emits the error
event for destination 1 while destination 0's event stream is exactly
its own engine's output. -/
theorem generator_error_isolated_witness :
    Ev.rowGenerationError 1 3 99 ∈ (processRow 3 genErrPairs).1
    ∧ (processRow 3 genErrPairs).1.filter (fun e => evTag e == some 0)
        = (destAcceptRow 0 exDest 3 []).1 := by
  have h := generator_error_isolated 3 genErrPairs 1 genErrDest [] 99
    rfl (by decide)
  exact ⟨h.1, (h.2.1 0 exDest [] rfl).2⟩

/-! ### Event-bus dispatch -/

theorem dispatchListeners_length :
    ∀ (ls : List (Ev → Except Nat Unit)) (ev : Ev),
      (dispatchListeners ls ev).length = ls.length := by
  intro ls
  induction ls with
  | nil =>
      intro ev
      rfl
  | cons l rest ih =>
      intro ev
      simp only [dispatchListeners, List.length_cons, ih]

theorem dispatchListeners_get? :
    ∀ (ls : List (Ev → Except Nat Unit)) (ev : Ev) (k : Nat),
      (dispatchListeners ls ev)[k]?
        = (ls[k]?).map (fun l => match l ev with
            | Except.ok _ => none
            | Except.error w => some w) := by
  intro ls
  induction ls with
  | nil =>
      intro ev k
      simp [dispatchListeners]
  | cons l rest ih =>
      intro ev k
      rcases k with _ | k2
      · simp [dispatchListeners]
      · simp only [dispatchListeners, List.getElem?_cons_succ]
        exact ih ev k2

/-- Claim C7: a listener's exception is caught individually by the bus:
the dispatch of an event returns one entry per registered listener — so
every listener is invoked even after an earlier one failed — the k-th
entry depends only on the k-th listener's own result, the dispatching
caller always completes (dispatch is total), and the job's trace and
outcome are unaffected by the listeners. -/
theorem listener_errors_isolated (ls : List (Ev → Except Nat Unit))
    (ev : Ev) (k : Nat) :
    (dispatchListeners ls ev).length = ls.length
    ∧ (dispatchListeners ls ev)[k]?
        = (ls[k]?).map (fun l => match l ev with
            | Except.ok _ => none
            | Except.error w => some w)
    ∧ ∀ cfg : JobConfig, (runJobObserved cfg ls).1 = runJob cfg :=
  ⟨dispatchListeners_length ls ev, dispatchListeners_get? ls ev k,
   fun _ => rfl⟩

/-! ### Event metadata -/

theorem assignMeta_get? (clock : Nat → Nat) :
    ∀ (es : List Ev) (k p : Nat),
      (assignMeta clock k es)[p]?
        = (es[p]?).map (fun e => ⟨e, k + p, clock (k + p)⟩) := by
  intro es
  induction es with
  | nil =>
      intro k p
      simp [assignMeta]
  | cons e rest ih =>
      intro k p
      rcases p with _ | p2
      · simp [assignMeta]
      · simp only [assignMeta, List.getElem?_cons_succ]
        have hadd : k + (p2 + 1) = (k + 1) + p2 := by omega
        simp only [hadd]
        exact ih (k + 1) p2

/-- Claim C8: event ids are assigned from a monotonically increasing
counter at emission time and timestamps from a monotone clock, so any
earlier record of a run has a strictly smaller `eventId` and a
less-or-equal `timestamp` than any later one. -/
theorem event_ids_strictly_increase (cfg : JobConfig) (clock : Nat → Nat)
    (hclock : Monotone clock) (i j : Nat) (ri rj : BellboyRecord)
    (hij : i < j)
    (hi : (jobRecords cfg clock)[i]? = some ri)
    (hj : (jobRecords cfg clock)[j]? = some rj) :
    ri.eventId < rj.eventId ∧ ri.timestamp ≤ rj.timestamp := by
  unfold jobRecords at hi hj
  rw [assignMeta_get? clock _ 0 i] at hi
  rw [assignMeta_get? clock _ 0 j] at hj
  rcases hti : (runJob cfg).trace[i]? with _ | ei
  · rw [hti] at hi
    simp at hi
  · rw [hti] at hi
    rcases htj : (runJob cfg).trace[j]? with _ | ej
    · rw [htj] at hj
      simp at hj
    · rw [htj] at hj
      simp only [Option.map] at hi hj
      injection hi with hi
      injection hj with hj
      subst hi
      subst hj
      refine ⟨by dsimp only; omega, ?_⟩
      dsimp only
      exact hclock (by omega)

/-- Claim C8, witness. -/
theorem event_ids_strictly_increase_witness :
    Monotone (fun n : Nat => n)
    ∧ (jobRecords exCfg (fun n => n))[0]?
        = some ⟨Ev.startProcessing, 0, 0⟩
    ∧ (jobRecords exCfg (fun n => n))[1]?
        = some ⟨Ev.startProcessingStream [9], 1, 1⟩
    ∧ (⟨Ev.startProcessing, 0, 0⟩ : BellboyRecord).eventId
        < (⟨Ev.startProcessingStream [9], 1, 1⟩ : BellboyRecord).eventId
    ∧ (⟨Ev.startProcessing, 0, 0⟩ : BellboyRecord).timestamp
        ≤ (⟨Ev.startProcessingStream [9], 1, 1⟩ : BellboyRecord).timestamp := by
  have hm : Monotone (fun n : Nat => n) := fun a b h => h
  have h0 : (jobRecords exCfg (fun n => n))[0]?
      = some ⟨Ev.startProcessing, 0, 0⟩ := by decide
  have h1 : (jobRecords exCfg (fun n => n))[1]?
      = some ⟨Ev.startProcessingStream [9], 1, 1⟩ := by decide
  have h := event_ids_strictly_increase exCfg (fun n => n) hm 0 1 _ _
    (by decide) h0 h1
  exact ⟨hm, h0, h1, h.1, h.2⟩

/-! ### Entry-module exports -/

/-- Claim C9 (evidence of the divergence): the package entry module does
not export `Job`, although the README documents `new bellboy.Job(...)` on
the required package. -/
theorem job_not_exported_from_entry : "Job" ∉ indexExports := by
  decide

/-- Claim C10: the entry module exports exactly the seven processors and
`getDb` — eight names — and exports no destination class, no `Reporter`,
no `DelimitedProcessor` and no `TailProcessor`, all of which the README
documents as available. -/
theorem entry_module_export_surface :
    indexExports = ["ExcelProcessor", "PostgresProcessor", "MssqlProcessor",
      "HttpProcessor", "DynamicProcessor", "JsonProcessor", "MqttProcessor",
      "getDb"]
    ∧ indexExports.length = 8
    ∧ "StdoutDestination" ∉ indexExports
    ∧ "HttpDestination" ∉ indexExports
    ∧ "PostgresDestination" ∉ indexExports
    ∧ "MssqlDestination" ∉ indexExports
    ∧ "Reporter" ∉ indexExports
    ∧ "DelimitedProcessor" ∉ indexExports
    ∧ "TailProcessor" ∉ indexExports := by
  refine ⟨rfl, rfl, ?_, ?_, ?_, ?_, ?_, ?_, ?_⟩ <;> decide

end Bellboy
